import Mathlib

/-!
CipherChat (`server.js`): key arithmetic, sessions, relay and handshake.

A shallow embedding of `server.js`.

* JavaScript numbers. The key arithmetic only ever produces non-negative
  integer-valued doubles, `Infinity` and `NaN`; `JSNumber` has exactly these.
  `Math.pow` on a non-negative integer base and a positive integer exponent is
  the exact power rounded to binary64 (round to nearest, ties to even, overflow
  to `Infinity`); `%` follows `Number::remainder`, which is exact.
* JavaScript strings are sequences of UTF-16 code units, so `.length` is the
  length of the sequence.
* `Map` is an insertion-ordered association list: `set` on a present key
  replaces the value in place, `set` on an absent key appends, `delete` removes.
* The server is a state (`users`, `connectedUsers`, pending callbacks, the log
  of emitted events) and a step function. A handler runs to its first `await`
  or to its end; what follows an `await`, and every `setTimeout` callback, is
  a pending callback that a later step runs. Random draws (`Math.random`, the
  bcrypt salt) come with the action that consumes them.
* The step function lets a pending callback run at any time, so a statement
  about all action sequences covers every schedule of the event loop;
  `respectsClock` singles out the sequences in which time does not go back and
  no callback runs before it is due.
* Credentials are strings and bcrypt does not throw, so the `catch` branch of
  the `join` handler ('Authentication failed') is never taken. The map `rooms`
  is never read or written and is left out.

`Math.pow` here is correctly rounded. An engine may return the other
neighbouring double when the exact power is not representable, so the value of
an inexact power in this file can differ from the engine's in the last bit.
The results below do not lean on that bit: they use exact powers (below
`2 ^ 53`), the overflow to `Infinity` from `5 ^ 442` on, relations that hold
for any value of the power, and for `C1` inputs where both neighbouring doubles
of each exact power give the same verdict.
-/

set_option maxRecDepth 100000
set_option exponentiation.threshold 1100

namespace CipherChat

/-! ## JavaScript numbers -/

/-- The Number values reachable by the key arithmetic: a finite non-negative
integer-valued double, `Infinity`, or `NaN`. -/
inductive JSNumber where
  | fin (n : Nat)
  | inf
  | nan
  deriving DecidableEq, Repr

/-- Number of binary digits of `n`, for `n < 2 ^ fuel`. -/
def bitLengthAux : Nat → Nat → Nat
  | 0, _ => 0
  | fuel + 1, n => if n = 0 then 0 else bitLengthAux fuel (n / 2) + 1

/-- Number of binary digits of a natural number below `2 ^ 1024`. -/
def bitLength (n : Nat) : Nat := bitLengthAux 1024 n

/-- The binary64 value nearest to the natural number `n` (ties to even).
Integers below `2 ^ 53` are exact; from `2 ^ 1024 - 2 ^ 970` on, the nearest
value is `Infinity`; in between the 53 leading bits are kept and rounded. -/
def roundToDouble (n : Nat) : JSNumber :=
  if n < 2 ^ 53 then .fin n
  else if 2 ^ 1024 - 2 ^ 970 ≤ n then .inf
  else
    let e := bitLength n - 53
    let q := n / 2 ^ e
    let r := n % 2 ^ e
    let half := 2 ^ (e - 1)
    .fin ((if half < r ∨ (r = half ∧ q % 2 = 1) then q + 1 else q) * 2 ^ e)

/-- The largest binary64 value not above `n`, for `2 ^ 53 ≤ n < 2 ^ 1024`. -/
def doubleBelow (n : Nat) : Nat :=
  let e := bitLength n - 53
  n / 2 ^ e * 2 ^ e

/-- The smallest binary64 value not below `n`, for `2 ^ 53 ≤ n < 2 ^ 1024 - 2 ^ 971`. -/
def doubleAbove (n : Nat) : Nat :=
  let e := bitLength n - 53
  if n % 2 ^ e = 0 then n else (n / 2 ^ e + 1) * 2 ^ e

/-- The function `Math.pow(base, exponent)` for a base in `JSNumber` and a
non-negative integer exponent (`Number::exponentiate`): exponent `0` gives `1`
whatever the base, a `NaN` base gives `NaN`, `Infinity` stays `Infinity`, and a
finite base gives the rounded power. -/
def Math.pow (base : JSNumber) (exponent : Nat) : JSNumber :=
  if exponent = 0 then .fin 1
  else
    match base with
    | .nan => .nan
    | .inf => .inf
    | .fin n => roundToDouble (n ^ exponent)

/-- The operator `n % d` for a finite non-negative integer divisor `d`
(`Number::remainder`): `NaN` or `Infinity` on the left, or a zero divisor, give
`NaN`; otherwise the exact remainder. -/
def jsRemainder (n : JSNumber) (d : Nat) : JSNumber :=
  match n with
  | .nan => .nan
  | .inf => .nan
  | .fin k => if d = 0 then .nan else .fin (k % d)

/-- The operator `===` on numbers: `NaN` is not equal to anything, itself
included. -/
def strictEquals : JSNumber → JSNumber → Bool
  | .fin a, .fin b => a == b
  | .inf, .inf => true
  | _, _ => false

/-! ## Key agreement (`server.js` lines 23-37) -/

def DH_PRIME : Nat := 2147483647

def DH_BASE : Nat := 5

/-- The value of `Math.floor(Math.random() * 1000000)`: an integer in
`[0, 999999]`. -/
abbrev RandomDraw := Fin 1000000

/-- `generatePrivateKey`, given the draw of `Math.random`. -/
def generatePrivateKey (draw : RandomDraw) : Nat := draw.val + 1

/-- `calculatePublicKey`: `Math.pow(DH_BASE, privateKey) % DH_PRIME`. -/
def calculatePublicKey (privateKey : Nat) : JSNumber :=
  jsRemainder (Math.pow (.fin DH_BASE) privateKey) DH_PRIME

/-- `calculateSharedSecret`: `Math.pow(otherPublicKey, privateKey) % DH_PRIME`. -/
def calculateSharedSecret (otherPublicKey : JSNumber) (privateKey : Nat) : JSNumber :=
  jsRemainder (Math.pow otherPublicKey privateKey) DH_PRIME

/-! ## Strings and maps -/

/-- A JavaScript string: its sequence of UTF-16 code units. -/
abbrev JSString := List Nat

/-- The property `.length` of a string. -/
def JSString.length (s : JSString) : Nat := List.length s

/-- The operator `!` on a string: only the empty string is falsy. -/
def JSString.not (s : JSString) : Bool := s.isEmpty

/-- A JavaScript `Map`: the entries in insertion order. -/
structure JSMap (κ ν : Type) where
  entries : List (κ × ν)
  deriving DecidableEq, Repr

/-- Replace the value at the first entry with key `k`, or append `(k, v)`. -/
def setEntry {κ ν : Type} [DecidableEq κ] (k : κ) (v : ν) : List (κ × ν) → List (κ × ν)
  | [] => [(k, v)]
  | e :: rest => if e.1 = k then (k, v) :: rest else e :: setEntry k v rest

/-- The value of the first entry with key `k`. -/
def getEntry {κ ν : Type} [DecidableEq κ] (k : κ) : List (κ × ν) → Option ν
  | [] => none
  | e :: rest => if e.1 = k then some e.2 else getEntry k rest

namespace JSMap

variable {κ ν : Type} [DecidableEq κ]

/-- `new Map()`. -/
def empty : JSMap κ ν := ⟨[]⟩

/-- `map.get(k)`; `none` is `undefined`. -/
def get (m : JSMap κ ν) (k : κ) : Option ν := getEntry k m.entries

/-- `map.set(k, v)`: a present key keeps its position. -/
def set (m : JSMap κ ν) (k : κ) (v : ν) : JSMap κ ν := ⟨setEntry k v m.entries⟩

/-- `map.delete(k)`. -/
def delete (m : JSMap κ ν) (k : κ) : JSMap κ ν := ⟨m.entries.filter (fun e => e.1 ≠ k)⟩

/-- `Array.from(map.values())`. -/
def values (m : JSMap κ ν) : List ν := m.entries.map Prod.snd

/-- `Array.from(map.keys())`. -/
def keys (m : JSMap κ ν) : List κ := m.entries.map Prod.fst

/-- `map.size`. -/
def size (m : JSMap κ ν) : Nat := m.entries.length

end JSMap

/-! ## Data held by the server -/

/-- The identifier `socket.id` of a connection. -/
abbrev SocketId := JSString

/-- The object `dhKeys` of a connected user (fields `private` and `public`). -/
structure DhKeys where
  private_ : Nat
  public_ : JSNumber
  deriving DecidableEq, Repr

/-- A value of `connectedUsers`. -/
structure ConnectedUser where
  username : JSString
  socketId : SocketId
  dhKeys : DhKeys
  deriving DecidableEq, Repr

/-- A value of `users`. -/
structure User where
  username : JSString
  passwordHash : JSString
  createdAt : Nat
  deriving DecidableEq, Repr

/-- The bcrypt library: `hash(password, 10)` with the salt it draws, and
`compare(password, hash)`. -/
structure Bcrypt where
  hash : JSString → Nat → JSString
  compare : JSString → JSString → Bool

/-- The `{ username, publicKey }` objects of a `handshakeStep` payload. -/
structure Participant where
  username : JSString
  publicKey : JSNumber
  deriving DecidableEq, Repr

/-- Events the server emits. `joinError`, `joinSuccess` go to one socket
(`socket.emit`), `messageReceived` to the room of one socket id
(`io.to(id).emit`), `userListUpdate` and `handshakeStep` to every connection
(`io.emit`). -/
inductive Emit where
  | joinError (socket : SocketId) (message : String)
  | joinSuccess (socket : SocketId) (username : JSString) (isNewUser : Bool)
      (publicKey : JSNumber)
  | userListUpdate (allUsers : List ConnectedUser)
  | messageReceived (room : SocketId) (sender : JSString) (decrypted : JSString)
      (timestamp : Nat)
  | handshakeStep (step : Nat) (description : String) (user1 user2 : Option Participant)
      (sharedSecret : Option JSNumber)
  deriving DecidableEq, Repr

/-- Code that runs later: the rest of the `join` handler after an `await`, or
a `setTimeout` callback, with the variables it closes over. -/
inductive Callback where
  | afterHash (socket : SocketId) (username password : JSString) (salt : Nat)
      (draw : RandomDraw)
  | afterCompare (socket : SocketId) (username password : JSString) (user : User)
      (draw : RandomDraw)
  | initiateHandshake
  | handshakeStep2 (user1 user2 : ConnectedUser)
  | handshakeStep3 (user1 user2 : ConnectedUser)
  deriving DecidableEq, Repr

/-- A pending callback: its identity, the earliest time it may run, its code. -/
structure Pending where
  id : Nat
  due : Nat
  callback : Callback
  deriving DecidableEq, Repr

/-- The server: the two maps, the pending callbacks, the events emitted so
far (oldest first) and the clock in milliseconds. -/
structure Server where
  users : JSMap JSString User
  connectedUsers : JSMap SocketId ConnectedUser
  pending : List Pending
  nextId : Nat
  emitted : List Emit
  now : Nat
  deriving DecidableEq, Repr

/-- What reaches the server: the three socket events, and the event loop
running a pending callback. -/
inductive Action where
  | join (socket : SocketId) (username password : JSString) (salt : Nat) (draw : RandomDraw)
  | sendMessage (socket : SocketId) (message : JSString)
  | disconnect (socket : SocketId)
  | run (id : Nat)
  deriving DecidableEq, Repr

namespace Server

/-- The server right after start-up. -/
def init : Server := ⟨JSMap.empty, JSMap.empty, [], 0, [], 0⟩

/-- `socket.emit`, `io.emit`, `io.to(id).emit`: append to the log. -/
def emit (s : Server) (e : Emit) : Server := { s with emitted := s.emitted ++ [e] }

/-- `setTimeout(cb, delay)`, and with delay `0` the suspension at an `await`. -/
def setTimeout (s : Server) (cb : Callback) (delay : Nat) : Server :=
  { s with pending := s.pending ++ [⟨s.nextId, s.now + delay, cb⟩], nextId := s.nextId + 1 }

/-- The pending callback with identity `id`. -/
def findPending (s : Server) (id : Nat) : Option Pending :=
  s.pending.find? (fun p => p.id = id)

/-- Lines 80-110 of the `join` handler: generate the keys, store the session,
answer `joinSuccess`, broadcast `userListUpdate`, schedule the handshake. -/
def joinTail (s : Server) (socket : SocketId) (username : JSString) (isNewUser : Bool)
    (draw : RandomDraw) : Server :=
  let privateKey := generatePrivateKey draw
  let publicKey := calculatePublicKey privateKey
  let s := { s with connectedUsers :=
    s.connectedUsers.set socket ⟨username, socket, ⟨privateKey, publicKey⟩⟩ }
  let s := s.emit (.joinSuccess socket username isNewUser publicKey)
  let allUsers := s.connectedUsers.values
  let s := s.emit (.userListUpdate allUsers)
  if allUsers.length ≥ 2 then s.setTimeout .initiateHandshake 1000 else s

/-- Lines 43-78 of the `join` handler, up to the `await`. -/
def onJoin (s : Server) (socket : SocketId) (username password : JSString) (salt : Nat)
    (draw : RandomDraw) : Server :=
  if username.not ∨ password.not ∨ username.length < 2 ∨ password.length < 6 then
    s.emit (.joinError socket "Invalid username or password")
  else
    match s.users.get username with
    | none => s.setTimeout (.afterHash socket username password salt draw) 0
    | some user => s.setTimeout (.afterCompare socket username password user draw) 0

/-- The `sendMessage` handler (lines 118-142). -/
def onSendMessage (s : Server) (socket : SocketId) (message : JSString) : Server :=
  match s.connectedUsers.get socket with
  | none => s
  | some sender =>
    let otherUsers := s.connectedUsers.entries.filter (fun e => e.1 ≠ socket)
    otherUsers.foldl
      (fun s e => s.emit (.messageReceived e.1 sender.username message s.now)) s

/-- The `disconnect` handler (lines 144-156). -/
def onDisconnect (s : Server) (socket : SocketId) : Server :=
  match s.connectedUsers.get socket with
  | none => s
  | some _ =>
    let s := { s with connectedUsers := s.connectedUsers.delete socket }
    s.emit (.userListUpdate s.connectedUsers.values)

/-- `initiateHandshake` up to its first `setTimeout` (lines 159-176). -/
def initiateHandshake (s : Server) : Server :=
  match s.connectedUsers.values with
  | user1 :: user2 :: _ =>
    let s := s.emit (.handshakeStep 1 "Generating keys"
      (some ⟨user1.username, user1.dhKeys.public_⟩)
      (some ⟨user2.username, user2.dhKeys.public_⟩) none)
    s.setTimeout (.handshakeStep2 user1 user2) 2000
  | _ => s

/-- Run the code of a callback. -/
def runCallback (B : Bcrypt) (s : Server) : Callback → Server
  | .afterHash socket username password salt draw =>
    let user : User := ⟨username, B.hash password salt, s.now⟩
    let s := { s with users := s.users.set username user }
    s.joinTail socket username true draw
  | .afterCompare socket username password user draw =>
    if B.compare password user.passwordHash = false then
      s.emit (.joinError socket "Invalid password")
    else
      s.joinTail socket username false draw
  | .initiateHandshake => s.initiateHandshake
  | .handshakeStep2 user1 user2 =>
    let s := s.emit (.handshakeStep 2 "Exchanging keys"
      (some ⟨user1.username, user1.dhKeys.public_⟩)
      (some ⟨user2.username, user2.dhKeys.public_⟩) none)
    s.setTimeout (.handshakeStep3 user1 user2) 2000
  | .handshakeStep3 user1 user2 =>
    let sharedSecret := calculateSharedSecret user2.dhKeys.public_ user1.dhKeys.private_
    s.emit (.handshakeStep 3 "Secure channel established" none none (some sharedSecret))

/-- One step of the server at time `t`. Running an identity that is not
pending does nothing. -/
def step (B : Bcrypt) (s : Server) (t : Nat) (a : Action) : Server :=
  let s := { s with now := t }
  match a with
  | .join socket username password salt draw => s.onJoin socket username password salt draw
  | .sendMessage socket message => s.onSendMessage socket message
  | .disconnect socket => s.onDisconnect socket
  | .run id =>
    match s.findPending id with
    | none => s
    | some p => runCallback B { s with pending := s.pending.filter (fun q => q.id ≠ id) } p.callback

/-- Run a sequence of timed actions. -/
def exec (B : Bcrypt) (s : Server) : List (Nat × Action) → Server
  | [] => s
  | (t, a) :: rest => exec B (step B s t a) rest

/-- A timed sequence respects the clock from state `s`: times do not decrease
and no callback runs before it is due. -/
def respectsClock (B : Bcrypt) (s : Server) : List (Nat × Action) → Bool
  | [] => true
  | (t, a) :: rest =>
    decide (s.now ≤ t) &&
    (match a with
      | .run id => (match s.findPending id with
          | some p => decide (p.due ≤ t)
          | none => false)
      | _ => true) &&
    respectsClock B (step B s t a) rest

end Server

/-- Every pending callback has an identity below the next one to hand out. -/
def Server.idsFresh (s : Server) : Prop := ∀ p ∈ s.pending, p.id < s.nextId

/-- The state `s2` has the pending callbacks of `s1` and then some new ones,
with identities from `s1.nextId` on. -/
def Server.Extends (s1 s2 : Server) : Prop :=
  ∃ added : List Pending, s2.pending = s1.pending ++ added ∧ s1.nextId ≤ s2.nextId ∧
    ∀ p ∈ added, s1.nextId ≤ p.id ∧ p.id < s2.nextId

/-- The state a callback with identity `id` starts from at time `t`: the clock
is set and the callback is no longer pending. -/
def Server.dequeue (s : Server) (t : Nat) (id : Nat) : Server :=
  { s with now := t, pending := s.pending.filter (fun q => q.id ≠ id) }

/-- The step numbers of the `handshakeStep` events of a log, oldest first. -/
def handshakeSteps : List Emit → List Nat
  | [] => []
  | .handshakeStep step _ _ _ _ :: rest => step :: handshakeSteps rest
  | _ :: rest => handshakeSteps rest

/-- The `messageReceived` events of a log addressed to `room`. -/
def deliveriesTo (room : SocketId) : List Emit → Nat
  | [] => 0
  | .messageReceived r _ _ _ :: rest =>
    (if r = room then 1 else 0) + deliveriesTo room rest
  | _ :: rest => deliveriesTo room rest

/-! ## Concrete data for the examples -/

/-- A bcrypt stand-in: the hash is the salt followed by the password. -/
def toyBcrypt : Bcrypt := ⟨fun password salt => salt :: password, fun password h => decide (h.tail = password)⟩

/-- The string "alice". -/
def alice : JSString := [97, 108, 105, 99, 101]

/-- The string "bob". -/
def bob : JSString := [98, 111, 98]

/-- The string "carol". -/
def carol : JSString := [99, 97, 114, 111, 108]

/-- The string "secret1". -/
def secret1 : JSString := [115, 101, 99, 114, 101, 116, 49]

/-- The string "secret2". -/
def secret2 : JSString := [115, 101, 99, 114, 101, 116, 50]

/-- Socket ids "A", "B", "C". -/
def sockA : SocketId := [65]

def sockB : SocketId := [66]

def sockC : SocketId := [67]

/-- Three joins, each completed, with the third arriving while the handshake
run of the first two is between its steps 1 and 2; every callback runs exactly
when it is due. -/
def overlapTrace : List (Nat × Action) :=
  [(0, .join sockA alice secret1 7 ⟨5, by decide⟩), (100, .run 0),
   (200, .join sockB bob secret2 8 ⟨13, by decide⟩), (300, .run 1),
   (1300, .run 2),
   (1500, .join sockC carol secret1 9 ⟨1, by decide⟩), (1600, .run 4),
   (2600, .run 5), (3300, .run 3), (4600, .run 6), (5300, .run 7), (6600, .run 8)]

/-- One completed join by "alice" on socket "A" with the given random draw. -/
def aliceJoins (draw : RandomDraw) : List (Nat × Action) :=
  [(0, .join sockA alice secret1 7 draw), (100, .run 0)]

/-- The server after "alice" joined on "A" and "bob" on "B". -/
def twoJoined : Server :=
  Server.exec toyBcrypt Server.init
    [(0, .join sockA alice secret1 7 ⟨5, by decide⟩), (100, .run 0),
     (200, .join sockB bob secret2 8 ⟨13, by decide⟩), (300, .run 1)]

/-- What happens between steps 1 and 2 in the example: "carol" joins on C and
the first participant disconnects. -/
def churn1 : List (Nat × Action) :=
  [(1500, .join sockC carol secret1 9 ⟨1, by decide⟩), (1600, .run 4),
   (1700, .disconnect sockA)]

/-- What happens between steps 2 and 3 in the example: the second participant
disconnects. -/
def churn2 : List (Nat × Action) := [(3400, .disconnect sockB)]

/-- The example for a second join on a connection that has a session: "alice"
joined on A, then "bob" sends `join` on the same socket A and its bcrypt call
is still pending (callback 1). -/
def rejoinTrace : List (Nat × Action) :=
  [(0, .join sockA alice secret1 7 ⟨5, by decide⟩), (100, .run 0),
   (200, .join sockA bob secret2 8 ⟨13, by decide⟩)]

/-- The example for a join on a new connection: "alice" on A and "bob" on B are
connected and "carol" has sent `join` on C (callback 3 pending). -/
def thirdJoinTrace : List (Nat × Action) :=
  [(0, .join sockA alice secret1 7 ⟨5, by decide⟩), (100, .run 0),
   (200, .join sockB bob secret2 8 ⟨13, by decide⟩), (300, .run 1),
   (400, .join sockC carol secret1 9 ⟨1, by decide⟩)]

/-- A callback is the successful end of a `join` for the given socket, username
and draw: the new-user path, or the known-user path with a matching password. -/
def Callback.completesJoin (B : Bcrypt) (cb : Callback) (socket : SocketId)
    (username : JSString) (draw : RandomDraw) : Prop :=
  (∃ password salt, cb = .afterHash socket username password salt draw) ∨
  (∃ password user, cb = .afterCompare socket username password user draw ∧
    B.compare password user.passwordHash = true)

/-- The session a successful `join` stores. -/
def newSession (socket : SocketId) (username : JSString) (draw : RandomDraw) : ConnectedUser :=
  ⟨username, socket, ⟨generatePrivateKey draw, calculatePublicKey (generatePrivateKey draw)⟩⟩

/-- The step numbers that action `a` makes the server announce from state
`s`: 1 when an `initiateHandshake` callback runs on a store of at least two
sessions, 2 and 3 when the timers of a run fire, nothing otherwise. Pending
runs play no part. -/
def announcedSteps (s : Server) : Action → List Nat
  | .run id =>
    match s.findPending id with
    | some p =>
      match p.callback with
      | .initiateHandshake => if 2 ≤ s.connectedUsers.size then [1] else []
      | .handshakeStep2 _ _ => [2]
      | .handshakeStep3 _ _ => [3]
      | _ => []
    | none => []
  | _ => []

/-- Two joins for the new username "alice" that overlap: the second, with
another password, arrives on B while the `bcrypt.hash` of the first is still
pending; then both hashes complete. -/
def raceTrace : List (Nat × Action) :=
  [(0, .join sockA alice secret1 7 ⟨5, by decide⟩),
   (10, .join sockB alice secret2 8 ⟨13, by decide⟩),
   (100, .run 0), (110, .run 1)]

/-- The overlapping joins, and after both have completed a join on C with the
password of the first join. -/
def raceThenJoin : List (Nat × Action) :=
  raceTrace ++ [(200, .join sockC alice secret1 9 ⟨1, by decide⟩), (300, .run 3)]

/-! ## Key agreement: results -/

theorem pow_five_overflow (k : Nat) (h : 442 ≤ k) : 2 ^ 1024 - 2 ^ 970 ≤ 5 ^ k := by
  have h1 : (5 : Nat) ^ 442 ≤ 5 ^ k := Nat.pow_le_pow_right (by norm_num) h
  have h2 : 2 ^ 1024 - 2 ^ 970 ≤ (5 : Nat) ^ 442 := by norm_num
  exact le_trans h2 h1

/-- From private key 442 on, `5 ^ privateKey` overflows binary64 and the public
key is `NaN`. -/
theorem calculatePublicKey_nan (k : Nat) (h : 442 ≤ k) : calculatePublicKey k = .nan := by
  have hk : k ≠ 0 := by omega
  have h1 := pow_five_overflow k h
  have h2 : ¬ (5 : Nat) ^ k < 2 ^ 53 := by
    have : (2 : Nat) ^ 53 ≤ 2 ^ 1024 - 2 ^ 970 := by norm_num
    omega
  unfold calculatePublicKey Math.pow
  rw [if_neg hk]
  show jsRemainder (roundToDouble (5 ^ k)) DH_PRIME = .nan
  unfold roundToDouble
  rw [if_neg h2, if_pos h1]
  rfl

/-- Up to private key 441 the public key is a finite integer below the prime. -/
theorem calculatePublicKey_fin (k : Nat) (h : k ≤ 441) :
    ∃ n, n < DH_PRIME ∧ calculatePublicKey k = .fin n := by
  have hP : 0 < DH_PRIME := by decide
  have hfin : ∃ m, Math.pow (.fin DH_BASE) k = .fin m := by
    unfold Math.pow
    by_cases hk : k = 0
    · exact ⟨1, by rw [if_pos hk]⟩
    · rw [if_neg hk]
      show ∃ m, roundToDouble (5 ^ k) = .fin m
      have h1 : (5 : Nat) ^ k ≤ 5 ^ 441 := Nat.pow_le_pow_right (by norm_num) h
      have h2 : (5 : Nat) ^ 441 < 2 ^ 1024 - 2 ^ 970 := by norm_num
      have h3 : ¬ 2 ^ 1024 - 2 ^ 970 ≤ (5 : Nat) ^ k := by omega
      unfold roundToDouble
      by_cases h4 : (5 : Nat) ^ k < 2 ^ 53
      · exact ⟨_, by rw [if_pos h4]⟩
      · exact ⟨_, by rw [if_neg h4, if_neg h3]⟩
  obtain ⟨m, hm⟩ := hfin
  refine ⟨m % DH_PRIME, Nat.mod_lt _ hP, ?_⟩
  unfold calculatePublicKey
  rw [hm]
  simp [jsRemainder, DH_PRIME]

/-- Up to private key 22 the power is exact and the public key is
`5 ^ privateKey mod DH_PRIME`. -/
theorem calculatePublicKey_exact (k : Nat) (h0 : 0 < k) (h : k ≤ 22) :
    calculatePublicKey k = .fin (5 ^ k % 2147483647) := by
  have hk : k ≠ 0 := by omega
  have h1 : (5 : Nat) ^ k ≤ 5 ^ 22 := Nat.pow_le_pow_right (by norm_num) h
  have h2 : (5 : Nat) ^ k < 2 ^ 53 := lt_of_le_of_lt h1 (by norm_num)
  unfold calculatePublicKey Math.pow
  rw [if_neg hk]
  show jsRemainder (roundToDouble (5 ^ k)) DH_PRIME = _
  unfold roundToDouble
  rw [if_pos h2]
  simp [jsRemainder, DH_PRIME]

/-- C1 (code defect): shared-secret commutativity fails on `server.js`. For the
private keys a = 14 and b = 2, `calculateSharedSecret(pubB, a)` is 1816783823
and `calculateSharedSecret(pubA, b)` is 1816785447 (the power is rounded to a
double before the remainder is taken), and for a = 1000000, b = 1 both sides
are `NaN`, which `===` does not hold equal to itself. The first mismatch does
not hinge on the rounding direction: whichever neighbouring double each power
is rounded to, the two remainders differ. -/
theorem C1_shared_secret_commutativity_fails :
    calculateSharedSecret (calculatePublicKey 2) 14 = .fin 1816783823 ∧
    calculateSharedSecret (calculatePublicKey 14) 2 = .fin 1816785447 ∧
    calculateSharedSecret (calculatePublicKey 1) 1000000 = .nan ∧
    calculateSharedSecret (calculatePublicKey 1000000) 1 = .nan ∧
    strictEquals (calculateSharedSecret (calculatePublicKey 1) 1000000)
      (calculateSharedSecret (calculatePublicKey 1000000) 1) = false ∧
    (∀ x ∈ [doubleBelow (25 ^ 14), doubleAbove (25 ^ 14)],
      ∀ y ∈ [doubleBelow (1808548331 ^ 2), doubleAbove (1808548331 ^ 2)],
        x % DH_PRIME ≠ y % DH_PRIME) := by
  have h1 : calculatePublicKey 1 = .fin 5 := by decide
  have h2 : calculatePublicKey 1000000 = .nan := calculatePublicKey_nan _ (by norm_num)
  have h3 : calculateSharedSecret (.fin 5) 1000000 = .nan := h2
  have h4 : calculateSharedSecret .nan 1 = .nan := by decide
  refine ⟨by decide, by decide, ?_, ?_, ?_, by decide⟩
  · rw [h1, h3]
  · rw [h2, h4]
  · rw [h1, h2, h3, h4]; rfl

/-- C2 (code defect): the public key is not always an integer in
`[0, DH_PRIME)`. Private key 6 gives 15625, but private keys 442 and 1000000
give `NaN`, which is no integer below the prime. -/
theorem C2_public_key_range_fails :
    calculatePublicKey 6 = .fin 15625 ∧
    calculatePublicKey 442 = .nan ∧
    calculatePublicKey 1000000 = .nan ∧
    ¬ ∃ n, n < DH_PRIME ∧ calculatePublicKey 1000000 = .fin n := by
  have h : calculatePublicKey 1000000 = .nan := calculatePublicKey_nan _ (by norm_num)
  refine ⟨by decide, calculatePublicKey_nan _ (by norm_num), h, ?_⟩
  rintro ⟨n, _, hn⟩
  rw [h] at hn
  exact JSNumber.noConfusion hn

/-! ## Map lemmas -/

section MapLemmas

variable {κ ν : Type} [DecidableEq κ]

theorem getEntry_eq_none_iff (k : κ) (l : List (κ × ν)) :
    getEntry k l = none ↔ k ∉ l.map Prod.fst := by
  induction l with
  | nil => simp [getEntry]
  | cons e rest ih =>
    by_cases h : e.1 = k
    · simp [getEntry, h]
    · have h' : ¬ k = e.1 := fun x => h x.symm
      simp [getEntry, h, h', ih]

theorem mem_keys_of_getEntry {k : κ} {v : ν} {l : List (κ × ν)} (h : getEntry k l = some v) :
    k ∈ l.map Prod.fst := by
  by_contra hk
  rw [← getEntry_eq_none_iff] at hk
  rw [hk] at h
  exact Option.noConfusion h

theorem setEntry_of_none (k : κ) (v : ν) (l : List (κ × ν)) (h : getEntry k l = none) :
    setEntry k v l = l ++ [(k, v)] := by
  induction l with
  | nil => rfl
  | cons e rest ih =>
    by_cases he : e.1 = k
    · simp [getEntry, he] at h
    · simp only [getEntry, he, if_false] at h
      simp [setEntry, he, ih h]

theorem length_setEntry_of_some (k : κ) (v old : ν) (l : List (κ × ν))
    (h : getEntry k l = some old) : (setEntry k v l).length = l.length := by
  induction l with
  | nil => simp [getEntry] at h
  | cons e rest ih =>
    by_cases he : e.1 = k
    · simp [setEntry, he]
    · simp only [getEntry, he, if_false] at h
      simp [setEntry, he, ih h]

theorem getEntry_setEntry_self (k : κ) (v : ν) (l : List (κ × ν)) :
    getEntry k (setEntry k v l) = some v := by
  induction l with
  | nil => simp [setEntry, getEntry]
  | cons e rest ih =>
    by_cases he : e.1 = k
    · simp [setEntry, getEntry, he]
    · simp [setEntry, getEntry, he, ih]

theorem getEntry_setEntry_ne (k k' : κ) (v : ν) (l : List (κ × ν)) (hne : k' ≠ k) :
    getEntry k' (setEntry k v l) = getEntry k' l := by
  induction l with
  | nil =>
    have : ¬ k = k' := fun x => hne x.symm
    simp [setEntry, getEntry, this]
  | cons e rest ih =>
    by_cases he : e.1 = k
    · have h1 : ¬ k = k' := fun x => hne x.symm
      have h2 : ¬ e.1 = k' := fun x => hne (x.symm.trans he)
      simp [setEntry, getEntry, he, h1, h2]
    · by_cases he' : e.1 = k'
      · simp [setEntry, getEntry, he, he', hne]
      · simp [setEntry, getEntry, he, he', ih]

theorem keys_setEntry_of_some (k : κ) (v old : ν) (l : List (κ × ν))
    (h : getEntry k l = some old) : (setEntry k v l).map Prod.fst = l.map Prod.fst := by
  induction l with
  | nil => simp [getEntry] at h
  | cons e rest ih =>
    by_cases he : e.1 = k
    · simp [setEntry, he]
    · simp only [getEntry, he, if_false] at h
      simp [setEntry, he, ih h]

theorem nodup_keys_setEntry (k : κ) (v : ν) (l : List (κ × ν))
    (h : (l.map Prod.fst).Nodup) : ((setEntry k v l).map Prod.fst).Nodup := by
  cases hg : getEntry k l with
  | none =>
    rw [setEntry_of_none k v l hg]
    have hk := (getEntry_eq_none_iff k l).1 hg
    simp only [List.map_append, List.map_cons, List.map_nil]
    rw [List.nodup_append]
    refine ⟨h, by simp, ?_⟩
    intro a ha hb
    simp only [List.mem_singleton] at hb
    exact hk (hb ▸ ha)
  | some old => rw [keys_setEntry_of_some k v old l hg]; exact h

omit [DecidableEq κ] in
theorem nodup_keys_filter (p : κ × ν → Bool) (l : List (κ × ν))
    (h : (l.map Prod.fst).Nodup) : ((l.filter p).map Prod.fst).Nodup :=
  List.Nodup.sublist (List.Sublist.map _ (List.filter_sublist l)) h

theorem map_fst_filter_ne (k : κ) (l : List (κ × ν)) :
    (l.filter (fun e => e.1 ≠ k)).map Prod.fst = (l.map Prod.fst).filter (fun x => x ≠ k) := by
  rw [List.filter_map]
  rfl

theorem length_filter_ne_of_nodup (k : κ) (l : List κ) (h : l.Nodup) (hk : k ∈ l) :
    (l.filter (fun x => x ≠ k)).length = l.length - 1 := by
  have h1 : l.filter (fun x => x ≠ k) = l.erase k := by
    rw [List.Nodup.erase_eq_filter h]
    congr 1
    funext x
    simp [bne, beq_eq_decide]
  rw [h1, List.length_erase_of_mem hk]

theorem count_filter_ne (k room : κ) (l : List κ) (h : l.Nodup) :
    (l.filter (fun x => x ≠ k)).count room = if room ≠ k ∧ room ∈ l then 1 else 0 := by
  have hnd : (l.filter (fun x => x ≠ k)).Nodup := List.Nodup.filter _ h
  have hiff : room ∈ l.filter (fun x => x ≠ k) ↔ room ≠ k ∧ room ∈ l := by
    rw [List.mem_filter]
    constructor
    · intro hx
      exact ⟨of_decide_eq_true hx.2, hx.1⟩
    · intro hx
      exact ⟨hx.2, decide_eq_true hx.1⟩
  by_cases hm : room ∈ l.filter (fun x => x ≠ k)
  · rw [List.count_eq_one_of_mem hnd hm, if_pos (hiff.1 hm)]
  · rw [List.count_eq_zero_of_not_mem hm, if_neg (fun hx => hm (hiff.2 hx))]

end MapLemmas

/-! ## How the handlers change the state -/

namespace Server

theorem foldl_emit_messageReceived (username message : JSString)
    (l : List (SocketId × ConnectedUser)) (s : Server) :
    l.foldl (fun s e => s.emit (.messageReceived e.1 username message s.now)) s =
      { s with emitted := s.emitted ++
          l.map (fun e => Emit.messageReceived e.1 username message s.now) } := by
  induction l generalizing s with
  | nil => simp
  | cons e rest ih =>
    rw [List.foldl_cons, ih]
    simp [emit]

theorem joinTail_emitted (s : Server) (socket : SocketId) (username : JSString)
    (isNewUser : Bool) (draw : RandomDraw) :
    (s.joinTail socket username isNewUser draw).emitted = s.emitted ++
      [.joinSuccess socket username isNewUser (calculatePublicKey (generatePrivateKey draw)),
       .userListUpdate (s.connectedUsers.set socket ⟨username, socket,
          ⟨generatePrivateKey draw, calculatePublicKey (generatePrivateKey draw)⟩⟩).values] := by
  unfold joinTail
  simp only [emit, setTimeout]
  split <;> simp

theorem joinTail_connectedUsers (s : Server) (socket : SocketId) (username : JSString)
    (isNewUser : Bool) (draw : RandomDraw) :
    (s.joinTail socket username isNewUser draw).connectedUsers =
      s.connectedUsers.set socket ⟨username, socket,
        ⟨generatePrivateKey draw, calculatePublicKey (generatePrivateKey draw)⟩⟩ := by
  unfold joinTail
  simp only [emit, setTimeout]
  split <;> rfl

theorem joinTail_users (s : Server) (socket : SocketId) (username : JSString)
    (isNewUser : Bool) (draw : RandomDraw) :
    (s.joinTail socket username isNewUser draw).users = s.users := by
  unfold joinTail
  simp only [emit, setTimeout]
  split <;> rfl

theorem joinTail_pending (s : Server) (socket : SocketId) (username : JSString)
    (isNewUser : Bool) (draw : RandomDraw) :
    (s.joinTail socket username isNewUser draw).pending =
      if 2 ≤ (s.connectedUsers.set socket ⟨username, socket,
          ⟨generatePrivateKey draw, calculatePublicKey (generatePrivateKey draw)⟩⟩).size
      then s.pending ++ [⟨s.nextId, s.now + 1000, .initiateHandshake⟩] else s.pending := by
  unfold joinTail
  simp only [emit, setTimeout, JSMap.values, JSMap.size, List.length_map, ge_iff_le]
  split <;> rfl

theorem onSendMessage_eq (s : Server) (socket : SocketId) (message : JSString)
    (sender : ConnectedUser) (h : s.connectedUsers.get socket = some sender) :
    s.onSendMessage socket message = { s with emitted := (s.emitted ++
      List.map (fun e => Emit.messageReceived e.1 sender.username message s.now)
        (s.connectedUsers.entries.filter (fun e => e.1 ≠ socket))) } := by
  unfold onSendMessage
  rw [h]
  exact foldl_emit_messageReceived _ _ _ _

end Server

theorem deliveriesTo_map (room : SocketId) (username message : JSString) (t : Nat)
    (l : List SocketId) :
    deliveriesTo room (l.map (fun r => Emit.messageReceived r username message t)) =
      @List.count SocketId instBEqOfDecidableEq room l := by
  induction l with
  | nil => rfl
  | cons a rest ih =>
    by_cases h : a = room
    · simp [deliveriesTo, ih, h]; omega
    · simp [deliveriesTo, ih, h, List.count_cons]

/-! ## Population broadcast and handshake overlap on concrete runs -/

theorem aliceJoins_emitted (draw : RandomDraw) :
    (Server.exec toyBcrypt Server.init (aliceJoins draw)).emitted =
      [.joinSuccess sockA alice true (calculatePublicKey (generatePrivateKey draw)),
       .userListUpdate [⟨alice, sockA,
         ⟨generatePrivateKey draw, calculatePublicKey (generatePrivateKey draw)⟩⟩]] := by
  rfl

/-- C7 (code defect): the `userListUpdate` payload is the stored session
objects, private keys included. After "alice" joins with private key 6 the
payload holds `dhKeys.private = 6`; and two runs that differ only in the
private key drawn (1000 and 2000, same public key `NaN`) broadcast different
payloads. -/
theorem C7_user_list_leaks_private_key :
    (Server.exec toyBcrypt Server.init (aliceJoins ⟨5, by decide⟩)).emitted =
      [.joinSuccess sockA alice true (.fin 15625),
       .userListUpdate [⟨alice, sockA, ⟨6, .fin 15625⟩⟩]] ∧
    (Server.exec toyBcrypt Server.init (aliceJoins ⟨999, by decide⟩)).emitted =
      [.joinSuccess sockA alice true .nan,
       .userListUpdate [⟨alice, sockA, ⟨1000, .nan⟩⟩]] ∧
    (Server.exec toyBcrypt Server.init (aliceJoins ⟨1999, by decide⟩)).emitted =
      [.joinSuccess sockA alice true .nan,
       .userListUpdate [⟨alice, sockA, ⟨2000, .nan⟩⟩]] := by
  have h1 : calculatePublicKey (generatePrivateKey ⟨999, by decide⟩) = .nan :=
    calculatePublicKey_nan _ (by decide)
  have h2 : calculatePublicKey (generatePrivateKey ⟨1999, by decide⟩) = .nan :=
    calculatePublicKey_nan _ (by decide)
  refine ⟨by decide, ?_, ?_⟩
  · rw [aliceJoins_emitted, h1]; rfl
  · rw [aliceJoins_emitted, h2]; rfl

/-- C8 (counterexample): with no guard in the code, a second run starts while
the first is in flight. In `overlapTrace`, which respects the clock, the
`handshakeStep` events carry the step numbers 1, 1, 2, 2, 3, 3: a second step 1
is emitted between the first run's step 1 and its step 3. -/
theorem C8_second_run_starts_in_flight :
    Server.respectsClock toyBcrypt Server.init overlapTrace = true ∧
    handshakeSteps (Server.exec toyBcrypt Server.init overlapTrace).emitted
      = [1, 1, 2, 2, 3, 3] := by
  decide

/-! ## Pending callbacks keep their identity -/

namespace Server

theorem step_join (B : Bcrypt) (s : Server) (t : Nat) (socket : SocketId)
    (username password : JSString) (salt : Nat) (draw : RandomDraw) :
    step B s t (.join socket username password salt draw) =
      onJoin { s with now := t } socket username password salt draw := rfl

theorem step_sendMessage (B : Bcrypt) (s : Server) (t : Nat) (socket : SocketId)
    (message : JSString) :
    step B s t (.sendMessage socket message) =
      onSendMessage { s with now := t } socket message := rfl

theorem step_disconnect (B : Bcrypt) (s : Server) (t : Nat) (socket : SocketId) :
    step B s t (.disconnect socket) = onDisconnect { s with now := t } socket := rfl

theorem step_run_none (B : Bcrypt) (s : Server) (t id : Nat) (h : s.findPending id = none) :
    step B s t (.run id) = { s with now := t } := by
  have h' : ({ s with now := t } : Server).findPending id = none := h
  simp only [step, h']

theorem step_run_some (B : Bcrypt) (s : Server) (t id : Nat) (p : Pending)
    (h : s.findPending id = some p) :
    step B s t (.run id) = runCallback B (s.dequeue t id) p.callback := by
  have h' : ({ s with now := t } : Server).findPending id = some p := h
  simp only [step, h']
  rfl

theorem Extends.refl (s : Server) : Extends s s :=
  ⟨[], by simp, Nat.le_refl _, by simp⟩

theorem Extends.trans {a b c : Server} (h1 : Extends a b) (h2 : Extends b c) : Extends a c := by
  obtain ⟨l1, hp1, hn1, hl1⟩ := h1
  obtain ⟨l2, hp2, hn2, hl2⟩ := h2
  refine ⟨l1 ++ l2, by rw [hp2, hp1, List.append_assoc], Nat.le_trans hn1 hn2, ?_⟩
  intro p hp
  rcases List.mem_append.1 hp with h | h
  · exact ⟨(hl1 p h).1, Nat.lt_of_lt_of_le (hl1 p h).2 hn2⟩
  · exact ⟨Nat.le_trans hn1 (hl2 p h).1, (hl2 p h).2⟩

theorem extends_emit (s : Server) (e : Emit) : Extends s (s.emit e) :=
  ⟨[], by simp [emit], Nat.le_refl _, by simp⟩

theorem extends_setTimeout (s : Server) (cb : Callback) (delay : Nat) :
    Extends s (s.setTimeout cb delay) := by
  refine ⟨[⟨s.nextId, s.now + delay, cb⟩], rfl, Nat.le_succ _, ?_⟩
  intro p hp
  simp only [List.mem_singleton] at hp
  subst hp
  exact ⟨Nat.le_refl _, Nat.lt_succ_self _⟩

theorem extends_of_eq {a b : Server} (hp : b.pending = a.pending) (hn : b.nextId = a.nextId) :
    Extends a b :=
  ⟨[], by simp [hp], by rw [hn], by simp⟩

theorem extends_joinTail (s : Server) (socket : SocketId) (username : JSString)
    (isNewUser : Bool) (draw : RandomDraw) :
    Extends s (s.joinTail socket username isNewUser draw) := by
  unfold joinTail
  simp only
  split
  · refine Extends.trans (extends_of_eq ?_ ?_) (extends_setTimeout _ _ _) <;> rfl
  · exact extends_of_eq rfl rfl

theorem extends_onJoin (s : Server) (socket : SocketId) (username password : JSString)
    (salt : Nat) (draw : RandomDraw) :
    Extends s (s.onJoin socket username password salt draw) := by
  unfold onJoin
  split
  · exact extends_emit _ _
  · split
    · exact extends_setTimeout _ _ _
    · exact extends_setTimeout _ _ _

theorem onSendMessage_pending (s : Server) (socket : SocketId) (message : JSString) :
    (s.onSendMessage socket message).pending = s.pending ∧
    (s.onSendMessage socket message).nextId = s.nextId ∧
    (s.onSendMessage socket message).connectedUsers = s.connectedUsers ∧
    (s.onSendMessage socket message).users = s.users := by
  cases h : s.connectedUsers.get socket with
  | none => simp [onSendMessage, h]
  | some sender => rw [onSendMessage_eq s socket message sender h]; exact ⟨rfl, rfl, rfl, rfl⟩

theorem onDisconnect_pending (s : Server) (socket : SocketId) :
    (s.onDisconnect socket).pending = s.pending ∧
    (s.onDisconnect socket).nextId = s.nextId ∧
    (s.onDisconnect socket).users = s.users := by
  unfold onDisconnect
  split <;> exact ⟨rfl, rfl, rfl⟩

theorem extends_initiateHandshake (s : Server) : Extends s s.initiateHandshake := by
  unfold initiateHandshake
  split
  · refine Extends.trans (extends_of_eq ?_ ?_) (extends_setTimeout _ _ _) <;> rfl
  · exact Extends.refl _

theorem extends_runCallback (B : Bcrypt) (s : Server) (cb : Callback) :
    Extends s (runCallback B s cb) := by
  cases cb with
  | afterHash socket username password salt draw =>
    simp only [runCallback]
    exact Extends.trans (extends_of_eq rfl rfl) (extends_joinTail _ _ _ _ _)
  | afterCompare socket username password user draw =>
    simp only [runCallback]
    split
    · exact extends_emit _ _
    · exact extends_joinTail _ _ _ _ _
  | initiateHandshake => exact extends_initiateHandshake s
  | handshakeStep2 user1 user2 =>
    simp only [runCallback]
    refine Extends.trans (extends_of_eq ?_ ?_) (extends_setTimeout _ _ _) <;> rfl
  | handshakeStep3 user1 user2 =>
    simp only [runCallback]
    exact extends_emit _ _

theorem idsFresh_of_extends {a b : Server} (h : Extends a b) (ha : a.idsFresh) : b.idsFresh := by
  obtain ⟨l, hp, hn, hl⟩ := h
  intro p hmem
  rw [hp] at hmem
  rcases List.mem_append.1 hmem with h1 | h1
  · exact Nat.lt_of_lt_of_le (ha p h1) hn
  · exact (hl p h1).2

theorem idsFresh_dequeue (s : Server) (t id : Nat) (h : s.idsFresh) :
    (s.dequeue t id).idsFresh := by
  intro p hp
  exact h p (List.mem_of_mem_filter hp)

theorem idsFresh_setNow (s : Server) (t : Nat) (h : s.idsFresh) :
    ({ s with now := t } : Server).idsFresh := h

theorem findPending_of_extends {a b : Server} (h : Extends a b) (id : Nat) (p : Pending)
    (ha : a.findPending id = some p) : b.findPending id = some p := by
  obtain ⟨l, hp, _, _⟩ := h
  unfold findPending at *
  rw [hp, List.find?_append, ha]
  rfl

theorem find?_filter_ne (l : List Pending) (id k : Nat) (h : id ≠ k) :
    (l.filter (fun q => q.id ≠ k)).find? (fun p => p.id = id) =
      l.find? (fun p => p.id = id) := by
  induction l with
  | nil => rfl
  | cons q rest ih =>
    by_cases hq : q.id = k
    · have h1 : decide (q.id ≠ k) = false := decide_eq_false (not_not.2 hq)
      have h2 : decide (q.id = id) = false := decide_eq_false (fun e => h (e.symm.trans hq))
      simp only [List.filter_cons, List.find?_cons, h1, h2, Bool.false_eq_true, if_false]
      exact ih
    · have h1 : decide (q.id ≠ k) = true := decide_eq_true hq
      by_cases hq' : q.id = id
      · have h2 : decide (q.id = id) = true := decide_eq_true hq'
        simp only [List.filter_cons, List.find?_cons, h1, h2, if_true]
      · have h2 : decide (q.id = id) = false := decide_eq_false hq'
        simp only [List.filter_cons, List.find?_cons, h1, h2, if_true]
        exact ih

theorem findPending_dequeue (s : Server) (t id k : Nat) (h : id ≠ k) :
    (s.dequeue t k).findPending id = s.findPending id :=
  find?_filter_ne s.pending id k h

theorem findPending_fresh (s : Server) (h : s.idsFresh) (id : Nat) (hid : s.nextId ≤ id) :
    s.findPending id = none := by
  unfold findPending
  rw [List.find?_eq_none]
  intro p hp
  have := h p hp
  simp
  omega

theorem step_extends_or (B : Bcrypt) (s : Server) (t : Nat) (a : Action) :
    (∃ id, a = .run id ∧ Extends (s.dequeue t id) (step B s t a)) ∨
    ((∀ id, a ≠ .run id) ∧ Extends s (step B s t a)) := by
  cases a with
  | join socket username password salt draw =>
    refine Or.inr ⟨(by intro id h; cases h), ?_⟩
    rw [step_join]
    exact Extends.trans (extends_of_eq rfl rfl) (extends_onJoin _ _ _ _ _ _)
  | sendMessage socket message =>
    refine Or.inr ⟨(by intro id h; cases h), ?_⟩
    rw [step_sendMessage]
    have h := onSendMessage_pending { s with now := t } socket message
    exact extends_of_eq h.1 h.2.1
  | disconnect socket =>
    refine Or.inr ⟨(by intro id h; cases h), ?_⟩
    rw [step_disconnect]
    have h := onDisconnect_pending { s with now := t } socket
    exact extends_of_eq h.1 h.2.1
  | run id =>
    refine Or.inl ⟨id, rfl, ?_⟩
    cases h : s.findPending id with
    | none =>
      rw [step_run_none B s t id h]
      refine extends_of_eq ?_ rfl
      show s.pending = s.pending.filter (fun q => q.id ≠ id)
      symm
      rw [List.filter_eq_self]
      intro q hq
      have hn : ¬ q.id = id := by
        unfold findPending at h
        rw [List.find?_eq_none] at h
        simpa using h q hq
      simpa using hn
    | some p =>
      rw [step_run_some B s t id p h]
      exact extends_runCallback B _ _

theorem step_idsFresh (B : Bcrypt) (s : Server) (t : Nat) (a : Action) (h : s.idsFresh) :
    (step B s t a).idsFresh := by
  rcases step_extends_or B s t a with ⟨id, _, hx⟩ | ⟨_, hx⟩
  · exact idsFresh_of_extends hx (idsFresh_dequeue s t id h)
  · exact idsFresh_of_extends hx h

theorem step_findPending (B : Bcrypt) (s : Server) (t : Nat) (a : Action) (id : Nat)
    (p : Pending) (hp : s.findPending id = some p) (ha : a ≠ .run id) :
    (step B s t a).findPending id = some p := by
  rcases step_extends_or B s t a with ⟨k, hk, hx⟩ | ⟨_, hx⟩
  · have hne : id ≠ k := by
      intro e
      subst e
      exact ha hk
    exact findPending_of_extends hx id p (by rw [findPending_dequeue s t id k hne]; exact hp)
  · exact findPending_of_extends hx id p hp

theorem exec_idsFresh (B : Bcrypt) (tr : List (Nat × Action)) (s : Server) (h : s.idsFresh) :
    (exec B s tr).idsFresh := by
  induction tr generalizing s with
  | nil => exact h
  | cons x rest ih => exact ih _ (step_idsFresh B s x.1 x.2 h)

theorem exec_findPending (B : Bcrypt) (tr : List (Nat × Action)) (s : Server) (id : Nat)
    (p : Pending) (hp : s.findPending id = some p) (htr : ∀ x ∈ tr, x.2 ≠ .run id) :
    (exec B s tr).findPending id = some p := by
  induction tr generalizing s with
  | nil => exact hp
  | cons x rest ih =>
    exact ih _ (step_findPending B s x.1 x.2 id p hp (htr x (List.mem_cons_self _ _)))
      (fun y hy => htr y (List.mem_cons_of_mem _ hy))

theorem init_idsFresh : init.idsFresh := by
  intro p hp
  cases hp

end Server

/-! ## Relay -/

/-- C4: relay exclusion. On a store with distinct connection ids, the
`sendMessage` handler of a sender with a live session emits one
`messageReceived` to each other live session, in store order, and none to the
sender or to an id without a session; the number of deliveries is the number of
sessions minus one. A sender without a session gets nothing delivered. In both
cases the session store, the ledger and the pending callbacks are unchanged. -/
theorem C4_relay_exclusion (B : Bcrypt) (s : Server) (t : Nat) (socket : SocketId)
    (message : JSString) (hkeys : s.connectedUsers.keys.Nodup) :
    (Server.step B s t (.sendMessage socket message)).connectedUsers = s.connectedUsers ∧
    (Server.step B s t (.sendMessage socket message)).users = s.users ∧
    (Server.step B s t (.sendMessage socket message)).pending = s.pending ∧
    match s.connectedUsers.get socket with
    | none => (Server.step B s t (.sendMessage socket message)).emitted = s.emitted
    | some sender =>
      ∃ delivered : List Emit,
        (Server.step B s t (.sendMessage socket message)).emitted = s.emitted ++ delivered ∧
        delivered = (s.connectedUsers.keys.filter (fun room => room ≠ socket)).map
          (fun room => Emit.messageReceived room sender.username message t) ∧
        delivered.length = s.connectedUsers.size - 1 ∧
        deliveriesTo socket delivered = 0 ∧
        ∀ room, room ≠ socket →
          deliveriesTo room delivered = if room ∈ s.connectedUsers.keys then 1 else 0 := by
  cases hget : s.connectedUsers.get socket with
  | none =>
    simp [Server.step, Server.onSendMessage, hget]
  | some sender =>
    have hget' : ({ s with now := t } : Server).connectedUsers.get socket = some sender := hget
    have hstep : Server.step B s t (.sendMessage socket message) =
        Server.onSendMessage { s with now := t } socket message := rfl
    rw [hstep, Server.onSendMessage_eq _ socket message sender hget']
    refine ⟨rfl, rfl, rfl, ?_⟩
    have hmem : socket ∈ s.connectedUsers.keys := mem_keys_of_getEntry hget
    refine ⟨_, rfl, ?_, ?_, ?_, ?_⟩
    · show List.map _ (s.connectedUsers.entries.filter (fun e => e.1 ≠ socket)) = _
      unfold JSMap.keys
      rw [← map_fst_filter_ne, List.map_map]
      rfl
    · show (List.map _ (s.connectedUsers.entries.filter (fun e => e.1 ≠ socket))).length = _
      rw [List.length_map]
      have := length_filter_ne_of_nodup socket s.connectedUsers.keys hkeys hmem
      unfold JSMap.keys at this
      rw [← map_fst_filter_ne, List.length_map, List.length_map] at this
      exact this
    · show deliveriesTo socket
        (List.map _ (s.connectedUsers.entries.filter (fun e => e.1 ≠ socket))) = 0
      have h1 : List.map (fun e : SocketId × ConnectedUser =>
            Emit.messageReceived e.1 sender.username message t)
            (s.connectedUsers.entries.filter (fun e => e.1 ≠ socket)) =
          List.map (fun r => Emit.messageReceived r sender.username message t)
            (s.connectedUsers.keys.filter (fun x => x ≠ socket)) := by
        unfold JSMap.keys
        rw [← map_fst_filter_ne, List.map_map]
        rfl
      rw [h1, deliveriesTo_map, count_filter_ne socket socket _ hkeys]
      simp
    · intro room hroom
      show deliveriesTo room
        (List.map _ (s.connectedUsers.entries.filter (fun e => e.1 ≠ socket))) = _
      have h1 : List.map (fun e : SocketId × ConnectedUser =>
            Emit.messageReceived e.1 sender.username message t)
            (s.connectedUsers.entries.filter (fun e => e.1 ≠ socket)) =
          List.map (fun r => Emit.messageReceived r sender.username message t)
            (s.connectedUsers.keys.filter (fun x => x ≠ socket)) := by
        unfold JSMap.keys
        rw [← map_fst_filter_ne, List.map_map]
        rfl
      rw [h1, deliveriesTo_map, count_filter_ne socket room _ hkeys]
      simp [hroom]

/-- C4 on a concrete store: "alice" on A and "bob" on B, A sends; the one
delivery goes to B. -/
theorem C4_relay_exclusion_witness :
    twoJoined.connectedUsers.keys.Nodup ∧
    ∃ delivered : List Emit,
      (Server.step toyBcrypt twoJoined 400 (.sendMessage sockA secret1)).emitted =
        twoJoined.emitted ++ delivered ∧
      delivered = (twoJoined.connectedUsers.keys.filter (fun room => room ≠ sockA)).map
        (fun room => Emit.messageReceived room alice secret1 400) ∧
      delivered.length = twoJoined.connectedUsers.size - 1 ∧
      deliveriesTo sockA delivered = 0 ∧
      ∀ room, room ≠ sockA →
        deliveriesTo room delivered = if room ∈ twoJoined.connectedUsers.keys then 1 else 0 :=
  ⟨by decide, (C4_relay_exclusion toyBcrypt twoJoined 400 sockA secret1 (by decide)).2.2.2⟩

/-! ## Admission -/

theorem length_lt_two_of_isEmpty (x : JSString) (h : x.not = true) : x.length < 2 := by
  cases x with
  | nil => simp [JSString.length]
  | cons a r => simp [JSString.not] at h

theorem runCallback_afterHash_emitted (B : Bcrypt) (s : Server) (socket : SocketId)
    (username password : JSString) (salt : Nat) (draw : RandomDraw) :
    (Server.runCallback B s (.afterHash socket username password salt draw)).emitted =
      s.emitted ++
      [.joinSuccess socket username true (calculatePublicKey (generatePrivateKey draw)),
       .userListUpdate (s.connectedUsers.set socket ⟨username, socket,
          ⟨generatePrivateKey draw, calculatePublicKey (generatePrivateKey draw)⟩⟩).values] := by
  simp only [Server.runCallback]
  rw [Server.joinTail_emitted]

theorem runCallback_afterCompare_emitted (B : Bcrypt) (s : Server) (socket : SocketId)
    (username password : JSString) (user : User) (draw : RandomDraw) :
    (Server.runCallback B s (.afterCompare socket username password user draw)).emitted =
      s.emitted ++
      (if B.compare password user.passwordHash = false then
        [.joinError socket "Invalid password"]
      else
        [.joinSuccess socket username false (calculatePublicKey (generatePrivateKey draw)),
         .userListUpdate (s.connectedUsers.set socket ⟨username, socket,
          ⟨generatePrivateKey draw, calculatePublicKey (generatePrivateKey draw)⟩⟩).values]) := by
  simp only [Server.runCallback]
  split
  · rfl
  · rw [Server.joinTail_emitted]

/-- C6: credential format check. For string credentials the `join` handler
answers `joinError` with the format message exactly when the username is
shorter than 2 or the password shorter than 6. In that case the answer is the
only change to the server: ledger, session store and pending callbacks stay as
they were, whatever the ledger holds. Otherwise the handler emits nothing
before its `await` and suspends on one callback, and that callback, whenever it
runs, never emits the format message. -/
theorem C6_credential_format_check (B : Bcrypt) (s : Server) (t : Nat) (socket : SocketId)
    (username password : JSString) (salt : Nat) (draw : RandomDraw) :
    if username.length < 2 ∨ password.length < 6 then
      Server.step B s t (.join socket username password salt draw) =
        { s with now := t,
                 emitted := s.emitted ++ [.joinError socket "Invalid username or password"] }
    else
      (Server.step B s t (.join socket username password salt draw)).emitted = s.emitted ∧
      (Server.step B s t (.join socket username password salt draw)).users = s.users ∧
      (Server.step B s t (.join socket username password salt draw)).connectedUsers =
        s.connectedUsers ∧
      ∃ cb : Callback,
        (Server.step B s t (.join socket username password salt draw)).pending =
          s.pending ++ [⟨s.nextId, t, cb⟩] ∧
        ∀ s2 : Server, ∃ new : List Emit,
          (Server.runCallback B s2 cb).emitted = s2.emitted ++ new ∧
          Emit.joinError socket "Invalid username or password" ∉ new := by
  have hstep : Server.step B s t (.join socket username password salt draw) =
      Server.onJoin { s with now := t } socket username password salt draw := rfl
  rw [hstep]
  by_cases hc : username.length < 2 ∨ password.length < 6
  · rw [if_pos hc]
    have hcond : (username.not = true) ∨ (password.not = true) ∨ username.length < 2 ∨
        password.length < 6 := Or.inr (Or.inr hc)
    unfold Server.onJoin
    rw [if_pos hcond]
    rfl
  · rw [if_neg hc]
    have hcond : ¬ ((username.not = true) ∨ (password.not = true) ∨ username.length < 2 ∨
        password.length < 6) := by
      rintro (h | h | h)
      · exact hc (Or.inl (length_lt_two_of_isEmpty _ h))
      · have := length_lt_two_of_isEmpty _ h
        exact hc (Or.inr (by omega))
      · exact hc h
    unfold Server.onJoin
    rw [if_neg hcond]
    cases hu : ({ s with now := t } : Server).users.get username with
    | none =>
      refine ⟨rfl, rfl, rfl, .afterHash socket username password salt draw, ?_, ?_⟩
      · simp only [Server.setTimeout, Nat.add_zero]
      · intro s2
        refine ⟨_, runCallback_afterHash_emitted B s2 socket username password salt draw, ?_⟩
        simp
    | some user =>
      refine ⟨rfl, rfl, rfl, .afterCompare socket username password user draw, ?_, ?_⟩
      · simp only [Server.setTimeout, Nat.add_zero]
      · intro s2
        refine ⟨_, runCallback_afterCompare_emitted B s2 socket username password user draw, ?_⟩
        split <;> simp

/-! ## Handshake run -/

namespace Server

theorem findPending_setTimeout (d : Server) (h : d.idsFresh) (cb : Callback) (delay : Nat) :
    (d.setTimeout cb delay).findPending d.nextId = some ⟨d.nextId, d.now + delay, cb⟩ := by
  have hnone : d.pending.find? (fun p => p.id = d.nextId) = none :=
    findPending_fresh d h d.nextId (Nat.le_refl _)
  unfold findPending setTimeout
  simp only
  rw [List.find?_append, hnone]
  simp

theorem run_initiateHandshake (B : Bcrypt) (s : Server) (t k : Nat) (p : Pending)
    (u1 u2 : ConnectedUser) (rest : List ConnectedUser)
    (hk : s.findPending k = some p) (hcb : p.callback = .initiateHandshake)
    (hstore : s.connectedUsers.values = u1 :: u2 :: rest) :
    step B s t (.run k) =
      ((s.dequeue t k).emit (.handshakeStep 1 "Generating keys"
        (some ⟨u1.username, u1.dhKeys.public_⟩)
        (some ⟨u2.username, u2.dhKeys.public_⟩) none)).setTimeout
        (.handshakeStep2 u1 u2) 2000 := by
  rw [step_run_some B s t k p hk, hcb]
  have hv : (s.dequeue t k).connectedUsers.values = u1 :: u2 :: rest := hstore
  simp only [runCallback, initiateHandshake, hv]

theorem run_handshakeStep2 (B : Bcrypt) (s : Server) (t k : Nat) (p : Pending)
    (u1 u2 : ConnectedUser)
    (hk : s.findPending k = some p) (hcb : p.callback = .handshakeStep2 u1 u2) :
    step B s t (.run k) =
      ((s.dequeue t k).emit (.handshakeStep 2 "Exchanging keys"
        (some ⟨u1.username, u1.dhKeys.public_⟩)
        (some ⟨u2.username, u2.dhKeys.public_⟩) none)).setTimeout
        (.handshakeStep3 u1 u2) 2000 := by
  rw [step_run_some B s t k p hk, hcb]
  rfl

theorem run_handshakeStep3 (B : Bcrypt) (s : Server) (t k : Nat) (p : Pending)
    (u1 u2 : ConnectedUser)
    (hk : s.findPending k = some p) (hcb : p.callback = .handshakeStep3 u1 u2) :
    step B s t (.run k) =
      (s.dequeue t k).emit (.handshakeStep 3 "Secure channel established" none none
        (some (calculateSharedSecret u2.dhKeys.public_ u1.dhKeys.private_))) := by
  rw [step_run_some B s t k p hk, hcb]
  rfl

end Server

/-- C3: handshake run trace. Take any server state whose pending callbacks
have fresh identities, in which an `initiateHandshake` callback `k` is pending
and the session store lists `u1`, `u2` first. Running `k` emits step 1 with the
usernames and public keys of `u1` and `u2` and schedules the step-2 callback
2000 ms later; after any actions `mid1` (joins, disconnects, messages, other
callbacks) running that callback emits step 2 with the same payload and
schedules the step-3 callback; after any actions `mid2` running it emits step 3
with `sharedSecret = calculateSharedSecret(u2 public key, u1 private key)` and
schedules nothing more. Each of the three steps emits exactly one event. -/
theorem C3_handshake_run_trace (B : Bcrypt) (s : Server) (k due t1 t2 t3 : Nat)
    (u1 u2 : ConnectedUser) (rest : List ConnectedUser) (mid1 mid2 : List (Nat × Action))
    (hfresh : s.idsFresh)
    (hk : s.findPending k = some ⟨k, due, .initiateHandshake⟩)
    (hstore : s.connectedUsers.values = u1 :: u2 :: rest)
    (hmid1 : ∀ x ∈ mid1, x.2 ≠ .run s.nextId)
    (hmid2 : ∀ x ∈ mid2,
      x.2 ≠ .run (Server.exec B (Server.step B s t1 (.run k)) mid1).nextId) :
    let s1 := Server.step B s t1 (.run k)
    let s2 := Server.exec B s1 mid1
    let s3 := Server.step B s2 t2 (.run s.nextId)
    let s4 := Server.exec B s3 mid2
    let s5 := Server.step B s4 t3 (.run s2.nextId)
    (s1.emitted = s.emitted ++ [.handshakeStep 1 "Generating keys"
        (some ⟨u1.username, u1.dhKeys.public_⟩) (some ⟨u2.username, u2.dhKeys.public_⟩) none] ∧
      s1.pending = s.pending.filter (fun q => q.id ≠ k) ++
        [⟨s.nextId, t1 + 2000, .handshakeStep2 u1 u2⟩]) ∧
    (s3.emitted = s2.emitted ++ [.handshakeStep 2 "Exchanging keys"
        (some ⟨u1.username, u1.dhKeys.public_⟩) (some ⟨u2.username, u2.dhKeys.public_⟩) none] ∧
      s3.pending = s2.pending.filter (fun q => q.id ≠ s.nextId) ++
        [⟨s2.nextId, t2 + 2000, .handshakeStep3 u1 u2⟩]) ∧
    (s5.emitted = s4.emitted ++ [.handshakeStep 3 "Secure channel established" none none
        (some (calculateSharedSecret u2.dhKeys.public_ u1.dhKeys.private_))] ∧
      s5.pending = s4.pending.filter (fun q => q.id ≠ s2.nextId)) := by
  intro s1 s2 s3 s4 s5
  -- step 1
  have e1 : s1 = ((s.dequeue t1 k).emit (.handshakeStep 1 "Generating keys"
        (some ⟨u1.username, u1.dhKeys.public_⟩)
        (some ⟨u2.username, u2.dhKeys.public_⟩) none)).setTimeout
        (.handshakeStep2 u1 u2) 2000 :=
    Server.run_initiateHandshake B s t1 k _ u1 u2 rest hk rfl hstore
  have f0 : (s.dequeue t1 k).idsFresh := Server.idsFresh_dequeue s t1 k hfresh
  have f1 : s1.idsFresh := Server.step_idsFresh B s t1 _ hfresh
  have p1 : s1.findPending s.nextId = some ⟨s.nextId, t1 + 2000, .handshakeStep2 u1 u2⟩ := by
    rw [e1]
    exact Server.findPending_setTimeout ((s.dequeue t1 k).emit _) f0 _ 2000
  -- between steps 1 and 2
  have f2 : s2.idsFresh := Server.exec_idsFresh B mid1 s1 f1
  have p2 : s2.findPending s.nextId = some ⟨s.nextId, t1 + 2000, .handshakeStep2 u1 u2⟩ :=
    Server.exec_findPending B mid1 s1 _ _ p1 hmid1
  -- step 2
  have e3 : s3 = ((s2.dequeue t2 s.nextId).emit (.handshakeStep 2 "Exchanging keys"
        (some ⟨u1.username, u1.dhKeys.public_⟩)
        (some ⟨u2.username, u2.dhKeys.public_⟩) none)).setTimeout
        (.handshakeStep3 u1 u2) 2000 :=
    Server.run_handshakeStep2 B s2 t2 s.nextId _ u1 u2 p2 rfl
  have f2' : (s2.dequeue t2 s.nextId).idsFresh := Server.idsFresh_dequeue s2 t2 _ f2
  have p3 : s3.findPending s2.nextId = some ⟨s2.nextId, t2 + 2000, .handshakeStep3 u1 u2⟩ := by
    rw [e3]
    exact Server.findPending_setTimeout ((s2.dequeue t2 s.nextId).emit _) f2' _ 2000
  -- between steps 2 and 3
  have p4 : s4.findPending s2.nextId = some ⟨s2.nextId, t2 + 2000, .handshakeStep3 u1 u2⟩ :=
    Server.exec_findPending B mid2 s3 _ _ p3 hmid2
  -- step 3
  have e5 : s5 = (s4.dequeue t3 s2.nextId).emit (.handshakeStep 3 "Secure channel established"
        none none (some (calculateSharedSecret u2.dhKeys.public_ u1.dhKeys.private_))) :=
    Server.run_handshakeStep3 B s4 t3 s2.nextId _ u1 u2 p4 rfl
  refine ⟨⟨?_, ?_⟩, ⟨?_, ?_⟩, ⟨?_, ?_⟩⟩
  · rw [e1]; rfl
  · rw [e1]; rfl
  · rw [e3]; rfl
  · rw [e3]; rfl
  · rw [e5]; rfl
  · rw [e5]; rfl

theorem twoJoined_idsFresh : twoJoined.idsFresh :=
  Server.exec_idsFresh toyBcrypt _ Server.init Server.init_idsFresh

/-- C3 on a concrete run: "alice" and "bob" are connected and the handshake is
scheduled; "carol" joins and "alice" disconnects between steps 1 and 2, "bob"
disconnects between steps 2 and 3. The run still announces alice and bob and
step 3 carries the secret computed from bob's public and alice's private key. -/
theorem C3_handshake_run_trace_witness :
    twoJoined.idsFresh ∧
    twoJoined.findPending 2 = some ⟨2, 1300, .initiateHandshake⟩ ∧
    twoJoined.connectedUsers.values =
      [⟨alice, sockA, ⟨6, .fin 15625⟩⟩, ⟨bob, sockB, ⟨14, .fin 1808548331⟩⟩] ∧
    (Server.step toyBcrypt
      (Server.exec toyBcrypt
        (Server.step toyBcrypt
          (Server.exec toyBcrypt (Server.step toyBcrypt twoJoined 1300 (.run 2)) churn1)
          3300 (.run 3))
        churn2)
      5300 (.run 6)).emitted =
    (Server.exec toyBcrypt
        (Server.step toyBcrypt
          (Server.exec toyBcrypt (Server.step toyBcrypt twoJoined 1300 (.run 2)) churn1)
          3300 (.run 3))
        churn2).emitted ++
      [.handshakeStep 3 "Secure channel established" none none
        (some (calculateSharedSecret (.fin 1808548331) 6))] :=
  ⟨twoJoined_idsFresh, by decide, by decide,
    (C3_handshake_run_trace toyBcrypt twoJoined 2 1300 1300 3300 5300
      ⟨alice, sockA, ⟨6, .fin 15625⟩⟩ ⟨bob, sockB, ⟨14, .fin 1808548331⟩⟩ [] churn1 churn2
      twoJoined_idsFresh (by decide) (by decide) (by decide) (by decide)).2.2.1⟩

/-! ## Session store -/

namespace Server

theorem run_afterHash (B : Bcrypt) (s : Server) (t id : Nat) (p : Pending)
    (socket : SocketId) (username password : JSString) (salt : Nat) (draw : RandomDraw)
    (hk : s.findPending id = some p)
    (hcb : p.callback = .afterHash socket username password salt draw) :
    step B s t (.run id) =
      joinTail { s.dequeue t id with
        users := s.users.set username ⟨username, B.hash password salt, t⟩ }
        socket username true draw := by
  rw [step_run_some B s t id p hk, hcb]
  rfl

theorem run_afterCompare_ok (B : Bcrypt) (s : Server) (t id : Nat) (p : Pending)
    (socket : SocketId) (username password : JSString) (user : User) (draw : RandomDraw)
    (hk : s.findPending id = some p)
    (hcb : p.callback = .afterCompare socket username password user draw)
    (hok : B.compare password user.passwordHash = true) :
    step B s t (.run id) = joinTail (s.dequeue t id) socket username false draw := by
  rw [step_run_some B s t id p hk, hcb]
  simp only [runCallback, hok]
  rfl

theorem run_afterCompare_bad (B : Bcrypt) (s : Server) (t id : Nat) (p : Pending)
    (socket : SocketId) (username password : JSString) (user : User) (draw : RandomDraw)
    (hk : s.findPending id = some p)
    (hcb : p.callback = .afterCompare socket username password user draw)
    (hbad : B.compare password user.passwordHash = false) :
    step B s t (.run id) = (s.dequeue t id).emit (.joinError socket "Invalid password") := by
  rw [step_run_some B s t id p hk, hcb]
  simp only [runCallback, hbad]
  rfl

/-- A successful join stores the new session and emits `joinSuccess` and
`userListUpdate` with the whole store. -/
theorem run_completesJoin (B : Bcrypt) (s : Server) (t id : Nat) (p : Pending)
    (socket : SocketId) (username : JSString) (draw : RandomDraw)
    (hk : s.findPending id = some p) (hcb : p.callback.completesJoin B socket username draw) :
    (step B s t (.run id)).connectedUsers =
      s.connectedUsers.set socket (newSession socket username draw) ∧
    ∃ isNewUser,
      (step B s t (.run id)).emitted = s.emitted ++
        [.joinSuccess socket username isNewUser (calculatePublicKey (generatePrivateKey draw)),
         .userListUpdate (s.connectedUsers.set socket (newSession socket username draw)).values]
      := by
  rcases hcb with ⟨password, salt, h⟩ | ⟨password, user, h, hok⟩
  · rw [run_afterHash B s t id p socket username password salt draw hk h]
    exact ⟨joinTail_connectedUsers _ _ _ _ _, true, joinTail_emitted _ _ _ _ _⟩
  · rw [run_afterCompare_ok B s t id p socket username password user draw hk h hok]
    exact ⟨joinTail_connectedUsers _ _ _ _ _, false, joinTail_emitted _ _ _ _ _⟩

theorem onJoin_connectedUsers (s : Server) (socket : SocketId) (username password : JSString)
    (salt : Nat) (draw : RandomDraw) :
    (s.onJoin socket username password salt draw).connectedUsers = s.connectedUsers ∧
    (s.onJoin socket username password salt draw).users = s.users := by
  unfold onJoin
  split
  · exact ⟨rfl, rfl⟩
  · split <;> exact ⟨rfl, rfl⟩

theorem nodup_keys_set (m : JSMap SocketId ConnectedUser) (k : SocketId) (v : ConnectedUser)
    (h : m.keys.Nodup) : (m.set k v).keys.Nodup :=
  nodup_keys_setEntry k v m.entries h

theorem runCallback_keys_nodup (B : Bcrypt) (s : Server) (cb : Callback)
    (h : s.connectedUsers.keys.Nodup) : (runCallback B s cb).connectedUsers.keys.Nodup := by
  cases cb with
  | afterHash socket username password salt draw =>
    simp only [runCallback]
    rw [joinTail_connectedUsers]
    exact nodup_keys_set _ _ _ h
  | afterCompare socket username password user draw =>
    simp only [runCallback]
    split
    · exact h
    · rw [joinTail_connectedUsers]
      exact nodup_keys_set _ _ _ h
  | initiateHandshake =>
    simp only [runCallback]
    unfold initiateHandshake
    split
    · exact h
    · exact h
  | handshakeStep2 user1 user2 => exact h
  | handshakeStep3 user1 user2 => exact h

theorem step_keys_nodup (B : Bcrypt) (s : Server) (t : Nat) (a : Action)
    (h : s.connectedUsers.keys.Nodup) : (step B s t a).connectedUsers.keys.Nodup := by
  cases a with
  | join socket username password salt draw =>
    rw [step_join, (onJoin_connectedUsers _ _ _ _ _ _).1]
    exact h
  | sendMessage socket message =>
    rw [step_sendMessage, (onSendMessage_pending _ _ _).2.2.1]
    exact h
  | disconnect socket =>
    rw [step_disconnect]
    unfold onDisconnect
    split
    · exact h
    · exact nodup_keys_filter _ _ h
  | run id =>
    cases hf : s.findPending id with
    | none => rw [step_run_none B s t id hf]; exact h
    | some p =>
      rw [step_run_some B s t id p hf]
      exact runCallback_keys_nodup B _ _ h

theorem exec_keys_nodup (B : Bcrypt) (tr : List (Nat × Action)) (s : Server)
    (h : s.connectedUsers.keys.Nodup) : (exec B s tr).connectedUsers.keys.Nodup := by
  induction tr generalizing s with
  | nil => exact h
  | cons x rest ih => exact ih _ (step_keys_nodup B s x.1 x.2 h)

end Server

/-- C9: session uniqueness and replacement. After every sequence of actions
from start-up the session store has pairwise distinct connection ids. When a
successful join completes on a connection id that already has a session, the
store keeps its size and its order of ids, the session of that id becomes
exactly the new username with the freshly drawn private key and
`calculatePublicKey` of it, and the session of every other id is unchanged. -/
theorem C9_session_uniqueness_and_replacement (B : Bcrypt) (tr : List (Nat × Action)) :
    (Server.exec B Server.init tr).connectedUsers.keys.Nodup ∧
    ∀ (t id : Nat) (p : Pending) (socket : SocketId) (username : JSString) (draw : RandomDraw)
      (old : ConnectedUser),
      (Server.exec B Server.init tr).findPending id = some p →
      p.callback.completesJoin B socket username draw →
      (Server.exec B Server.init tr).connectedUsers.get socket = some old →
      (Server.step B (Server.exec B Server.init tr) t (.run id)).connectedUsers.size =
        (Server.exec B Server.init tr).connectedUsers.size ∧
      (Server.step B (Server.exec B Server.init tr) t (.run id)).connectedUsers.keys =
        (Server.exec B Server.init tr).connectedUsers.keys ∧
      (Server.step B (Server.exec B Server.init tr) t (.run id)).connectedUsers.get socket =
        some ⟨username, socket,
          ⟨generatePrivateKey draw, calculatePublicKey (generatePrivateKey draw)⟩⟩ ∧
      ∀ other, other ≠ socket →
        (Server.step B (Server.exec B Server.init tr) t (.run id)).connectedUsers.get other =
          (Server.exec B Server.init tr).connectedUsers.get other := by
  refine ⟨Server.exec_keys_nodup B tr Server.init (by simp [Server.init, JSMap.empty, JSMap.keys]),
    ?_⟩
  intro t id p socket username draw old hk hcb hold
  have h := (Server.run_completesJoin B _ t id p socket username draw hk hcb).1
  rw [h]
  refine ⟨?_, ?_, ?_, ?_⟩
  · exact length_setEntry_of_some socket _ old _ hold
  · exact keys_setEntry_of_some socket _ old _ hold
  · exact getEntry_setEntry_self socket _ _
  · intro other hne
    exact getEntry_setEntry_ne socket other _ _ hne

/-- C9 on a concrete run: "alice" is connected on A and "bob" joins on the same
socket A; the store still has one session, now bob's with private key 14. -/
theorem C9_session_uniqueness_and_replacement_witness :
    (Server.exec toyBcrypt Server.init rejoinTrace).findPending 1 =
      some ⟨1, 200, .afterHash sockA bob secret2 8 ⟨13, by decide⟩⟩ ∧
    (Server.exec toyBcrypt Server.init rejoinTrace).connectedUsers.get sockA =
      some ⟨alice, sockA, ⟨6, .fin 15625⟩⟩ ∧
    (Server.step toyBcrypt (Server.exec toyBcrypt Server.init rejoinTrace) 300
        (.run 1)).connectedUsers.size =
      (Server.exec toyBcrypt Server.init rejoinTrace).connectedUsers.size ∧
    (Server.step toyBcrypt (Server.exec toyBcrypt Server.init rejoinTrace) 300
        (.run 1)).connectedUsers.keys =
      (Server.exec toyBcrypt Server.init rejoinTrace).connectedUsers.keys ∧
    (Server.step toyBcrypt (Server.exec toyBcrypt Server.init rejoinTrace) 300
        (.run 1)).connectedUsers.get sockA =
      some ⟨bob, sockA, ⟨generatePrivateKey ⟨13, by decide⟩,
        calculatePublicKey (generatePrivateKey ⟨13, by decide⟩)⟩⟩ ∧
    ∀ other, other ≠ sockA →
      (Server.step toyBcrypt (Server.exec toyBcrypt Server.init rejoinTrace) 300
        (.run 1)).connectedUsers.get other =
      (Server.exec toyBcrypt Server.init rejoinTrace).connectedUsers.get other :=
  ⟨by decide, by decide,
    (C9_session_uniqueness_and_replacement toyBcrypt rejoinTrace).2 300 1
      ⟨1, 200, .afterHash sockA bob secret2 8 ⟨13, by decide⟩⟩ sockA bob ⟨13, by decide⟩
      ⟨alice, sockA, ⟨6, .fin 15625⟩⟩ (by decide) (Or.inl ⟨secret2, 8, rfl⟩) (by decide)⟩

/-! ## Population broadcast -/

/-- C10: population broadcast ordering. When a successful join completes on a
connection id without a session, the new session goes to the end of the store
and the `userListUpdate` payload is the previous listing followed by the new
session, so sessions created on distinct ids are listed in creation order. A
disconnect of an id with a session removes that entry only, and the payload is
the remaining sessions in their previous relative order. A disconnect of an id
without a session only moves the clock: nothing is emitted or changed. -/
theorem C10_population_broadcast_ordering (B : Bcrypt) (s : Server) (t : Nat)
    (socket : SocketId) :
    (∀ (id : Nat) (p : Pending) (username : JSString) (draw : RandomDraw),
      s.findPending id = some p →
      p.callback.completesJoin B socket username draw →
      s.connectedUsers.get socket = none →
      (Server.step B s t (.run id)).connectedUsers.values =
        s.connectedUsers.values ++ [newSession socket username draw] ∧
      ∃ isNewUser,
        (Server.step B s t (.run id)).emitted = s.emitted ++
          [.joinSuccess socket username isNewUser
              (calculatePublicKey (generatePrivateKey draw)),
           .userListUpdate (s.connectedUsers.values ++ [newSession socket username draw])]) ∧
    (match s.connectedUsers.get socket with
     | some _ =>
       (Server.step B s t (.disconnect socket)).connectedUsers.entries =
         s.connectedUsers.entries.filter (fun e => e.1 ≠ socket) ∧
       (Server.step B s t (.disconnect socket)).emitted = s.emitted ++
         [.userListUpdate
           ((s.connectedUsers.entries.filter (fun e => e.1 ≠ socket)).map Prod.snd)] ∧
       List.Sublist ((s.connectedUsers.entries.filter (fun e => e.1 ≠ socket)).map Prod.snd)
         s.connectedUsers.values
     | none => Server.step B s t (.disconnect socket) = { s with now := t }) := by
  constructor
  · intro id p username draw hk hcb hnone
    obtain ⟨h1, isNew, h2⟩ := Server.run_completesJoin B s t id p socket username draw hk hcb
    have hset : s.connectedUsers.set socket (newSession socket username draw) =
        ⟨s.connectedUsers.entries ++ [(socket, newSession socket username draw)]⟩ := by
      unfold JSMap.set
      rw [setEntry_of_none socket _ _ hnone]
    have hval : (s.connectedUsers.set socket (newSession socket username draw)).values =
        s.connectedUsers.values ++ [newSession socket username draw] := by
      rw [hset]
      simp [JSMap.values]
    refine ⟨by rw [h1, hval], isNew, ?_⟩
    rw [h2, hval]
  · cases hget : s.connectedUsers.get socket with
    | none =>
      have hget' : ({ s with now := t } : Server).connectedUsers.get socket = none := hget
      show Server.step B s t (.disconnect socket) = _
      rw [Server.step_disconnect]
      unfold Server.onDisconnect
      rw [hget']
    | some u =>
      have hget' : ({ s with now := t } : Server).connectedUsers.get socket = some u := hget
      have hstep : Server.step B s t (.disconnect socket) =
          Server.emit { s with now := t, connectedUsers := s.connectedUsers.delete socket }
            (.userListUpdate (s.connectedUsers.delete socket).values) := by
        rw [Server.step_disconnect]
        unfold Server.onDisconnect
        rw [hget']
      show _ ∧ _ ∧ _
      rw [hstep]
      refine ⟨rfl, rfl, ?_⟩
      exact List.Sublist.map _ (List.filter_sublist _)

/-- C10 on a concrete run: "alice" on A and "bob" on B are connected; "carol"
joining on C is listed third, after alice and bob. -/
theorem C10_population_broadcast_ordering_witness :
    (Server.exec toyBcrypt Server.init thirdJoinTrace).findPending 3 =
      some ⟨3, 400, .afterHash sockC carol secret1 9 ⟨1, by decide⟩⟩ ∧
    (Server.exec toyBcrypt Server.init thirdJoinTrace).connectedUsers.get sockC = none ∧
    (Server.step toyBcrypt (Server.exec toyBcrypt Server.init thirdJoinTrace) 500
        (.run 3)).connectedUsers.values =
      (Server.exec toyBcrypt Server.init thirdJoinTrace).connectedUsers.values ++
        [newSession sockC carol ⟨1, by decide⟩] :=
  ⟨by decide, by decide,
    (((C10_population_broadcast_ordering toyBcrypt
        (Server.exec toyBcrypt Server.init thirdJoinTrace) 500 sockC).1) 3
      ⟨3, 400, .afterHash sockC carol secret1 9 ⟨1, by decide⟩⟩ carol ⟨1, by decide⟩
      (by decide) (Or.inl ⟨secret1, 9, rfl⟩) (by decide)).1⟩

/-! ## Credential ledger -/

namespace Server

/-- The `join` handler on well-formed credentials suspends on a pending
callback with the next identity: `afterHash` for an unknown username,
`afterCompare` with the stored record for a known one. -/
theorem step_join_valid (B : Bcrypt) (s : Server) (t : Nat) (socket : SocketId)
    (username password : JSString) (salt : Nat) (draw : RandomDraw)
    (hu : 2 ≤ username.length) (hp : 6 ≤ password.length) :
    step B s t (.join socket username password salt draw) =
      setTimeout { s with now := t }
        (match s.users.get username with
          | none => .afterHash socket username password salt draw
          | some user => .afterCompare socket username password user draw) 0 := by
  rw [step_join]
  have hcond : ¬ ((username.not = true) ∨ (password.not = true) ∨ username.length < 2 ∨
      password.length < 6) := by
    rintro (h | h | h | h)
    · have := length_lt_two_of_isEmpty _ h
      omega
    · have := length_lt_two_of_isEmpty _ h
      omega
    · omega
    · omega
  unfold onJoin
  rw [if_neg hcond]
  show (match s.users.get username with
    | none => _
    | some user => _) = _
  cases s.users.get username <;> rfl

/-- A `join` on well-formed credentials followed at once by its callback. -/
theorem join_then_run (B : Bcrypt) (s : Server) (t t' : Nat) (socket : SocketId)
    (username password : JSString) (salt : Nat) (draw : RandomDraw)
    (hu : 2 ≤ username.length) (hp : 6 ≤ password.length) (hfresh : s.idsFresh) :
    exec B s [(t, .join socket username password salt draw), (t', .run s.nextId)] =
      runCallback B
        ((setTimeout { s with now := t }
          (match s.users.get username with
            | none => .afterHash socket username password salt draw
            | some user => .afterCompare socket username password user draw) 0).dequeue
          t' s.nextId)
        (match s.users.get username with
          | none => .afterHash socket username password salt draw
          | some user => .afterCompare socket username password user draw) := by
  have h1 := step_join_valid B s t socket username password salt draw hu hp
  have h2 := findPending_setTimeout { s with now := t } hfresh
    (match s.users.get username with
      | none => .afterHash socket username password salt draw
      | some user => .afterCompare socket username password user draw) 0
  have h0 : exec B s [(t, .join socket username password salt draw), (t', .run s.nextId)] =
      step B (step B s t (.join socket username password salt draw)) t' (.run s.nextId) := rfl
  rw [h0, h1, step_run_some B _ t' s.nextId _ h2]

end Server

/-- Admission when each join runs to its end before the next one arrives. Let
bcrypt accept every password against its own
hash, and let the username (length at least 2) be absent from the ledger. A
join with a password of length at least 6 stores the credential with the hash
of that password and answers `joinSuccess` with `isNewUser = true`. A following
join with the same username and password answers `joinSuccess` with
`isNewUser = false` and leaves the ledger as it is. A following join with a
password that bcrypt rejects against the stored hash answers `joinError`
'Invalid password', creates no session and leaves the ledger as it is. -/
theorem admission_when_serial (B : Bcrypt) (s : Server)
    (socket1 socket2 socket3 : SocketId) (username password wrong : JSString)
    (salt1 salt2 salt3 : Nat) (d1 d2 d3 : RandomDraw) (t1 r1 t2 r2 t3 r3 : Nat)
    (hB : ∀ p salt, B.compare p (B.hash p salt) = true)
    (hwrong : B.compare wrong (B.hash password salt1) = false)
    (hu : 2 ≤ username.length) (hp : 6 ≤ password.length) (hw : 6 ≤ wrong.length)
    (habsent : s.users.get username = none) (hfresh : s.idsFresh) :
    let s1 := Server.exec B s
      [(t1, .join socket1 username password salt1 d1), (r1, .run s.nextId)]
    let s2 := Server.exec B s1
      [(t2, .join socket2 username password salt2 d2), (r2, .run s1.nextId)]
    let s3 := Server.exec B s2
      [(t3, .join socket3 username wrong salt3 d3), (r3, .run s2.nextId)]
    (s1.users.get username = some ⟨username, B.hash password salt1, r1⟩ ∧
      s1.emitted = s.emitted ++
        [.joinSuccess socket1 username true (calculatePublicKey (generatePrivateKey d1)),
         .userListUpdate s1.connectedUsers.values]) ∧
    (s2.users = s1.users ∧
      s2.emitted = s1.emitted ++
        [.joinSuccess socket2 username false (calculatePublicKey (generatePrivateKey d2)),
         .userListUpdate s2.connectedUsers.values]) ∧
    (s3.users = s2.users ∧ s3.connectedUsers = s2.connectedUsers ∧
      s3.emitted = s2.emitted ++ [.joinError socket3 "Invalid password"]) := by
  intro s1 s2 s3
  have e1 : s1 = Server.runCallback B
      ((Server.setTimeout { s with now := t1 }
        (.afterHash socket1 username password salt1 d1) 0).dequeue r1 s.nextId)
      (.afterHash socket1 username password salt1 d1) := by
    have h := Server.join_then_run B s t1 r1 socket1 username password salt1 d1 hu hp hfresh
    rw [habsent] at h
    exact h
  have f1 : s1.idsFresh := Server.exec_idsFresh B _ s hfresh
  have u1 : s1.users.get username = some ⟨username, B.hash password salt1, r1⟩ := by
    rw [e1]
    simp only [Server.runCallback]
    rw [Server.joinTail_users]
    exact getEntry_setEntry_self username _ _
  have e2 : s2 = Server.runCallback B
      ((Server.setTimeout { s1 with now := t2 }
        (.afterCompare socket2 username password ⟨username, B.hash password salt1, r1⟩ d2)
          0).dequeue r2 s1.nextId)
      (.afterCompare socket2 username password ⟨username, B.hash password salt1, r1⟩ d2) := by
    have h := Server.join_then_run B s1 t2 r2 socket2 username password salt2 d2 hu hp f1
    rw [u1] at h
    exact h
  have f2 : s2.idsFresh := Server.exec_idsFresh B _ s1 f1
  have hok : B.compare password (B.hash password salt1) = true := hB password salt1
  have e2' : s2 = Server.joinTail
      ((Server.setTimeout { s1 with now := t2 }
        (.afterCompare socket2 username password ⟨username, B.hash password salt1, r1⟩ d2)
          0).dequeue r2 s1.nextId) socket2 username false d2 := by
    rw [e2]
    simp only [Server.runCallback, hok]
    rfl
  have u2 : s2.users = s1.users := by
    rw [e2', Server.joinTail_users]
    rfl
  have e3 : s3 = Server.runCallback B
      ((Server.setTimeout { s2 with now := t3 }
        (.afterCompare socket3 username wrong ⟨username, B.hash password salt1, r1⟩ d3)
          0).dequeue r3 s2.nextId)
      (.afterCompare socket3 username wrong ⟨username, B.hash password salt1, r1⟩ d3) := by
    have h := Server.join_then_run B s2 t3 r3 socket3 username wrong salt3 d3 hu hw f2
    have hget : s2.users.get username = some ⟨username, B.hash password salt1, r1⟩ := by
      rw [u2]
      exact u1
    rw [hget] at h
    exact h
  have e3' : s3 = Server.emit
      ((Server.setTimeout { s2 with now := t3 }
        (.afterCompare socket3 username wrong ⟨username, B.hash password salt1, r1⟩ d3)
          0).dequeue r3 s2.nextId) (.joinError socket3 "Invalid password") := by
    rw [e3]
    simp only [Server.runCallback, hwrong]
    rfl
  refine ⟨⟨u1, ?_⟩, ⟨u2, ?_⟩, ⟨?_, ?_, ?_⟩⟩
  · have hc : s1.connectedUsers = s.connectedUsers.set socket1 (newSession socket1 username d1) := by
      rw [e1]
      simp only [Server.runCallback]
      rw [Server.joinTail_connectedUsers]
      rfl
    rw [hc, e1, runCallback_afterHash_emitted]
    rfl
  · have hc : s2.connectedUsers =
        s1.connectedUsers.set socket2 (newSession socket2 username d2) := by
      rw [e2', Server.joinTail_connectedUsers]
      rfl
    rw [hc, e2', Server.joinTail_emitted]
    rfl
  · rw [e3']; rfl
  · rw [e3']; rfl
  · rw [e3']; rfl

/-- Serial admission on a fresh server with the toy bcrypt: "alice" registers with
"secret1", joins again with it, then tries "secret2". -/
theorem admission_when_serial_example :
    (∀ p salt, toyBcrypt.compare p (toyBcrypt.hash p salt) = true) ∧
    toyBcrypt.compare secret2 (toyBcrypt.hash secret1 7) = false ∧
    2 ≤ alice.length ∧ 6 ≤ secret1.length ∧ 6 ≤ secret2.length ∧
    Server.init.users.get alice = none ∧
    (Server.exec toyBcrypt Server.init
      [(0, .join sockA alice secret1 7 ⟨5, by decide⟩), (100, .run 0)]).users.get alice =
      some ⟨alice, toyBcrypt.hash secret1 7, 100⟩ :=
  ⟨by intro p salt; simp [toyBcrypt], by decide, by decide, by decide, by decide, by decide,
    (admission_when_serial toyBcrypt Server.init sockA sockB sockC alice secret1 secret2
      7 8 9 ⟨5, by decide⟩ ⟨13, by decide⟩ ⟨1, by decide⟩ 0 100 200 300 400 500
      (by intro p salt; simp [toyBcrypt]) (by decide) (by decide) (by decide) (by decide)
      (by decide) Server.init_idsFresh).1.1⟩

/-- C5 (code defect): first use registers, later use verifies, fails when two
joins for a new username overlap. The handler looks the username up before
`await bcrypt.hash` and stores the credential after it, without looking again.
In `raceThenJoin`, which respects the clock and uses a bcrypt that accepts
every password against its own hash, "alice" joins with "secret1" on A and,
while that hash is pending, with "secret2" on B. Both joins answer
`joinSuccess` with `isNewUser = true`; the stored hash is that of "secret1"
once the first join completes and that of "secret2" once the second does; and a
join on C after both, with the password "secret1" of the first join, answers
`joinError` 'Invalid password'. -/
theorem C5_overlapping_joins_overwrite_credential :
    (∀ p salt, toyBcrypt.compare p (toyBcrypt.hash p salt) = true) ∧
    Server.respectsClock toyBcrypt Server.init raceThenJoin = true ∧
    (Server.exec toyBcrypt Server.init (raceTrace.take 3)).users.get alice =
      some ⟨alice, toyBcrypt.hash secret1 7, 100⟩ ∧
    (Server.exec toyBcrypt Server.init raceTrace).users.get alice =
      some ⟨alice, toyBcrypt.hash secret2 8, 110⟩ ∧
    (Server.exec toyBcrypt Server.init raceThenJoin).users.get alice =
      some ⟨alice, toyBcrypt.hash secret2 8, 110⟩ ∧
    (Server.exec toyBcrypt Server.init raceThenJoin).emitted =
      [.joinSuccess sockA alice true (.fin 15625),
       .userListUpdate [⟨alice, sockA, ⟨6, .fin 15625⟩⟩],
       .joinSuccess sockB alice true (.fin 1808548331),
       .userListUpdate [⟨alice, sockA, ⟨6, .fin 15625⟩⟩,
         ⟨alice, sockB, ⟨14, .fin 1808548331⟩⟩],
       .joinError sockC "Invalid password"] := by
  refine ⟨?_, by decide, by decide, by decide, by decide, by decide⟩
  intro p salt
  simp [toyBcrypt]

/-! ## Handshake runs are not guarded -/

theorem handshakeSteps_append (l1 l2 : List Emit) :
    handshakeSteps (l1 ++ l2) = handshakeSteps l1 ++ handshakeSteps l2 := by
  induction l1 with
  | nil => rfl
  | cons e rest ih => cases e <;> simp [handshakeSteps, ih]

theorem handshakeSteps_messageReceived (username message : JSString) (t : Nat)
    (l : List (SocketId × ConnectedUser)) :
    handshakeSteps (l.map (fun e => Emit.messageReceived e.1 username message t)) = [] := by
  induction l with
  | nil => rfl
  | cons e rest ih => simp [handshakeSteps, ih]

theorem handshakeSteps_joinTail (s : Server) (socket : SocketId) (username : JSString)
    (isNewUser : Bool) (draw : RandomDraw) :
    handshakeSteps (s.joinTail socket username isNewUser draw).emitted =
      handshakeSteps s.emitted := by
  rw [Server.joinTail_emitted, handshakeSteps_append]
  simp [handshakeSteps]

theorem handshakeSteps_initiateHandshake (s : Server) :
    handshakeSteps s.initiateHandshake.emitted =
      handshakeSteps s.emitted ++ (if 2 ≤ s.connectedUsers.size then [1] else []) := by
  unfold Server.initiateHandshake JSMap.values JSMap.size
  rcases hs : s.connectedUsers.entries with _ | ⟨e1, _ | ⟨e2, rest⟩⟩
  · simp
  · simp
  · simp [Server.emit, Server.setTimeout, handshakeSteps_append, handshakeSteps]

theorem handshakeSteps_runCallback (B : Bcrypt) (s : Server) (cb : Callback) :
    handshakeSteps (Server.runCallback B s cb).emitted = handshakeSteps s.emitted ++
      (match cb with
        | .initiateHandshake => if 2 ≤ s.connectedUsers.size then [1] else []
        | .handshakeStep2 _ _ => [2]
        | .handshakeStep3 _ _ => [3]
        | _ => []) := by
  cases cb with
  | afterHash socket username password salt draw =>
    simp only [Server.runCallback]
    rw [handshakeSteps_joinTail]
    simp
  | afterCompare socket username password user draw =>
    simp only [Server.runCallback]
    split
    · simp [Server.emit, handshakeSteps_append, handshakeSteps]
    · rw [handshakeSteps_joinTail]
      simp
  | initiateHandshake => exact handshakeSteps_initiateHandshake s
  | handshakeStep2 user1 user2 =>
    simp [Server.runCallback, Server.emit, Server.setTimeout, handshakeSteps_append,
      handshakeSteps]
  | handshakeStep3 user1 user2 =>
    simp [Server.runCallback, Server.emit, handshakeSteps_append, handshakeSteps]

/-- C8 (amended): no guard. Whatever callbacks are pending, a step of the
server announces exactly `announcedSteps`: step 1 whenever an
`initiateHandshake` callback runs on a store of at least two sessions, steps 2
and 3 when a run's own timers fire, and nothing on any other action. A
disconnect or a message schedules nothing, and a successful join schedules one
`initiateHandshake` 1000 ms later exactly when it leaves at least two sessions,
also while a run is in flight. -/
theorem C8_runs_start_without_guard (B : Bcrypt) (s : Server) (t : Nat) :
    (∀ a, handshakeSteps (Server.step B s t a).emitted =
      handshakeSteps s.emitted ++ announcedSteps s a) ∧
    (∀ socket, (Server.step B s t (.disconnect socket)).pending = s.pending) ∧
    (∀ socket message, (Server.step B s t (.sendMessage socket message)).pending = s.pending) ∧
    (∀ (id : Nat) (p : Pending) (socket : SocketId) (username : JSString) (draw : RandomDraw),
      s.findPending id = some p →
      p.callback.completesJoin B socket username draw →
      (Server.step B s t (.run id)).pending =
        s.pending.filter (fun q => q.id ≠ id) ++
          (if 2 ≤ (s.connectedUsers.set socket (newSession socket username draw)).size
           then [⟨s.nextId, t + 1000, .initiateHandshake⟩] else [])) := by
  refine ⟨?_, ?_, ?_, ?_⟩
  · intro a
    cases a with
    | join socket username password salt draw =>
      rw [Server.step_join]
      unfold Server.onJoin
      split
      · simp [Server.emit, handshakeSteps_append, handshakeSteps, announcedSteps]
      · split <;> simp [Server.setTimeout, announcedSteps]
    | sendMessage socket message =>
      rw [Server.step_sendMessage]
      cases hget : ({ s with now := t } : Server).connectedUsers.get socket with
      | none => simp [Server.onSendMessage, hget, announcedSteps]
      | some sender =>
        rw [Server.onSendMessage_eq _ socket message sender hget]
        simp [handshakeSteps_append, handshakeSteps_messageReceived, announcedSteps]
    | disconnect socket =>
      rw [Server.step_disconnect]
      unfold Server.onDisconnect
      split
      · simp [announcedSteps]
      · simp [Server.emit, handshakeSteps_append, handshakeSteps, announcedSteps]
    | run id =>
      cases hf : s.findPending id with
      | none =>
        rw [Server.step_run_none B s t id hf]
        simp [announcedSteps, hf]
      | some p =>
        rw [Server.step_run_some B s t id p hf, handshakeSteps_runCallback]
        simp only [announcedSteps, hf]
        rfl
  · intro socket
    rw [Server.step_disconnect]
    exact (Server.onDisconnect_pending _ _).1
  · intro socket message
    rw [Server.step_sendMessage]
    exact (Server.onSendMessage_pending _ _ _).1
  · intro id p socket username draw hk hcb
    have key : ∀ (x : Server) (b : Bool), x.connectedUsers = s.connectedUsers →
        x.pending = s.pending.filter (fun q => q.id ≠ id) → x.nextId = s.nextId → x.now = t →
        (x.joinTail socket username b draw).pending =
          s.pending.filter (fun q => q.id ≠ id) ++
            (if 2 ≤ (s.connectedUsers.set socket (newSession socket username draw)).size
             then [⟨s.nextId, t + 1000, .initiateHandshake⟩] else []) := by
      intro x b h1 h2 h3 h4
      rw [Server.joinTail_pending, h1, h2, h3, h4]
      unfold newSession
      split <;> simp
    rcases hcb with ⟨password, salt, h⟩ | ⟨password, user, h, hok⟩
    · rw [Server.run_afterHash B s t id p socket username password salt draw hk h]
      exact key _ true rfl rfl rfl rfl
    · rw [Server.run_afterCompare_ok B s t id p socket username password user draw hk h hok]
      exact key _ false rfl rfl rfl rfl

/-- C8 (amended) on a concrete run: "alice" and "bob" are connected and "carol"
has sent `join`; when her join completes, one `initiateHandshake` is scheduled
1000 ms later. -/
theorem C8_runs_start_without_guard_witness :
    (Server.exec toyBcrypt Server.init thirdJoinTrace).findPending 3 =
      some ⟨3, 400, .afterHash sockC carol secret1 9 ⟨1, by decide⟩⟩ ∧
    (Server.step toyBcrypt (Server.exec toyBcrypt Server.init thirdJoinTrace) 500
        (.run 3)).pending =
      (Server.exec toyBcrypt Server.init thirdJoinTrace).pending.filter (fun q => q.id ≠ 3) ++
        (if 2 ≤ ((Server.exec toyBcrypt Server.init thirdJoinTrace).connectedUsers.set sockC
            (newSession sockC carol ⟨1, by decide⟩)).size
         then [⟨(Server.exec toyBcrypt Server.init thirdJoinTrace).nextId, 500 + 1000,
            .initiateHandshake⟩]
         else []) :=
  ⟨by decide,
    (C8_runs_start_without_guard toyBcrypt
      (Server.exec toyBcrypt Server.init thirdJoinTrace) 500).2.2.2 3
      ⟨3, 400, .afterHash sockC carol secret1 9 ⟨1, by decide⟩⟩ sockC carol ⟨1, by decide⟩
      (by decide) (Or.inl ⟨secret1, 9, rfl⟩)⟩

end CipherChat
